import Mathlib

/-!
Verification development for the `CoinModel` builder of the CoinUtils
repository (`src/include/CoinModel.hpp`).

The repository ships only the class declaration (`CoinModel.hpp`); the
implementation file is not under `src/`.  The definitions below therefore
embed the data model and the operations as the specification (`spec.md`)
and the header's own doc comments describe them.  Every definition whose
C++ body is missing from the repository carries a doc comment starting
with `Modelled from the spec:`.  The inline forwarders (`addCol`,
`setColLower`, `operator()`, `deleteCol`, `packCols`, `getColLower`, ...)
do have bodies in the header and are translated from those bodies.

Representation choices:
  * `double` values are embedded as `ℚ` (the store performs no arithmetic,
    only storage and retrieval, so exact values are faithful);
  * the C++ constant `COIN_DBL_MAX` (the spec's stand-in for plus or minus
    infinity in default bounds) is the rational constant `COIN_DBL_MAX`;
  * row/column indices are `Nat` (negative indices are a documented
    precondition violation, spec section 7 "Invalid-argument");
  * the element store is a list of slots in physical (append) order, a
    `none` slot being a hole left by deletion; because holes are never
    reused before a pack, the dual linked lists of the C++ code traverse
    live slots in ascending physical position, which is how traversal is
    embedded here;
  * the parallel per-row (resp. per-column) attribute arrays are merged
    into one list of `CoinRowInfo` (resp. `CoinColumnInfo`) records;
  * capacities (`maximumRows_`, ...) are carried as explicit counters
    updated by the documented grow policy.
-/

/-- Modelled from the spec: stand-in for the C++ constant `COIN_DBL_MAX`,
the largest double, which spec and header use as the default infinite
bound (row lower defaults to `-COIN_DBL_MAX`, upper to `+COIN_DBL_MAX`). -/
def COIN_DBL_MAX : ℚ := (10 : ℚ) ^ 308

/-- Value slot of an element: either a floating point number or an interned
string id referencing the string pool (spec section 3, "Element"). -/
inductive CoinValue where
  | num (v : ℚ)
  | str (id : Nat)
deriving DecidableEq

/-- One matrix entry: owning row, owning column and the value slot
(the `CoinModelTriple` of the C++ code). -/
structure CoinModelTriple where
  row : Nat
  column : Nat
  value : CoinValue
deriving DecidableEq

/-- Does triple `t` sit at coordinate `(i, j)`? -/
def matchesRC (i j : Nat) (t : CoinModelTriple) : Bool :=
  t.row == i && t.column == j

/-- First live slot (scanning in physical order) whose triple satisfies `p`,
with its position.  This is how the row/column linked lists of the C++ code
enumerate: insertion appends at the tail, holes are never reused before a
pack, hence list order is ascending physical position over live slots. -/
def findLive : List (Option CoinModelTriple) → (CoinModelTriple → Bool) →
    Option (Nat × CoinModelTriple)
  | [], _ => none
  | none :: rest, p => (findLive rest p).map (fun q => (q.1 + 1, q.2))
  | some t :: rest, p =>
    if p t then some (0, t) else (findLive rest p).map (fun q => (q.1 + 1, q.2))

/-- Last live slot whose triple satisfies `p`, with its position. -/
def findLiveLast : List (Option CoinModelTriple) → (CoinModelTriple → Bool) →
    Option (Nat × CoinModelTriple)
  | [], _ => none
  | e :: rest, p =>
    match findLiveLast rest p with
    | some q => some (q.1 + 1, q.2)
    | none =>
      match e with
      | some t => if p t then some (0, t) else none
      | none => none

/-- In-place overwrite of the first live slot at coordinate `(i, j)`:
returns `none` when no live slot holds that coordinate (the caller then
appends), mirroring the coordinate-hash existence check of the C++ code. -/
def setInList : List (Option CoinModelTriple) → Nat → Nat → CoinValue →
    Option (List (Option CoinModelTriple))
  | [], _, _, _ => none
  | none :: rest, i, j, v => (setInList rest i j v).map (fun es => none :: es)
  | some t :: rest, i, j, v =>
    if matchesRC i j t then some (some { t with value := v } :: rest)
    else (setInList rest i j v).map (fun es => some t :: es)

/-- Id of an interned string in the pool (position in the pool list). -/
def stringId : List (String × ℚ) → String → Option Nat
  | [], _ => none
  | p :: rest, s => if p.1 = s then some 0 else (stringId rest s).map (· + 1)

/-- Modelled from the spec: the grow policy of the backing arrays —
"at least double capacity or exactly satisfy the requested size,
whichever is larger" (spec section 4.1). -/
def growCapacity (current needed : Nat) : Nat :=
  if needed ≤ current then current else max (2 * current) needed

/-- Row metadata (spec section 3, "Row"): lower bound, upper bound, name.
Default: bounds `(-COIN_DBL_MAX, COIN_DBL_MAX)` and empty name. -/
structure CoinRowInfo where
  lower : ℚ
  upper : ℚ
  rname : String
deriving DecidableEq

/-- Column metadata (spec section 3, "Column"): lower bound (default 0),
upper bound (default `COIN_DBL_MAX`), objective (default 0), name,
integrality flag (default false). -/
structure CoinColumnInfo where
  lower : ℚ
  upper : ℚ
  objective : ℚ
  cname : String
  isInteger : Bool
deriving DecidableEq

/-- Default row attributes. -/
def defaultRowInfo : CoinRowInfo := ⟨-COIN_DBL_MAX, COIN_DBL_MAX, ""⟩

/-- Default column attributes. -/
def defaultColumnInfo : CoinColumnInfo := ⟨0, COIN_DBL_MAX, 0, "", false⟩

/-- Traversal cursor (the `CoinModelLink` of the C++ code): position of the
current element in the store (`-1` is the absent sentinel), its row and
column, whether the cursor walks a row list or a column list, and the
(resolved) value of the current element. -/
structure CoinModelLink where
  element_ : Int
  row_ : Int
  column_ : Int
  onRow_ : Bool
  value_ : ℚ
deriving DecidableEq

/-- The absent cursor: index `-1`. -/
def absentLink (onRow : Bool) : CoinModelLink := ⟨-1, -1, -1, onRow, 0⟩

/-- The `CoinModel` aggregate (spec section 3, "Model").  Counts are the
lengths of the lists; capacities are the explicit `maximum*_` counters of
the C++ class kept in step by the grow policy. -/
structure CoinModel where
  maximumRows_ : Nat
  maximumColumns_ : Nat
  maximumElements_ : Nat
  maximumQuadraticElements_ : Nat
  rows_ : List CoinRowInfo
  columns_ : List CoinColumnInfo
  elements_ : List (Option CoinModelTriple)
  quadraticElements_ : List (Option CoinModelTriple)
  string_ : List (String × ℚ)
deriving DecidableEq

namespace CoinModel

/-- Modelled from the spec: the default constructor `CoinModel()` — empty
model, zero counts and capacities. -/
def init : CoinModel := ⟨0, 0, 0, 0, [], [], [], [], []⟩

/-- `numberRows()`: current number of rows. -/
def numberRows (m : CoinModel) : Nat := m.rows_.length

/-- `numberColumns()`: current number of columns. -/
def numberColumns (m : CoinModel) : Nat := m.columns_.length

/-- `numberElements()`: current number of element slots (a hole left by a
deletion still occupies its slot until a pack — spec glossary "Hole"). -/
def numberElements (m : CoinModel) : Nat := m.elements_.length

/-- Current number of quadratic element slots. -/
def numberQuadraticElements (m : CoinModel) : Nat := m.quadraticElements_.length

/-- The live triples of the element store in physical order. -/
def liveTriples (m : CoinModel) : List CoinModelTriple := m.elements_.filterMap id

/-- Row attributes at index `i` (default attributes when out of range). -/
def rowInfoAt (m : CoinModel) (i : Nat) : CoinRowInfo := m.rows_.getD i defaultRowInfo

/-- Column attributes at index `j` (default attributes when out of range). -/
def columnInfoAt (m : CoinModel) (j : Nat) : CoinColumnInfo :=
  m.columns_.getD j defaultColumnInfo

/-- Modelled from the spec: `fillRows` — ensure rows `0..which` exist,
auto-creating all intervening rows with default attribute values (spec
section 4.4 lazy extension), growing the row capacity as needed. -/
def fillRows (m : CoinModel) (which : Nat) : CoinModel :=
  if which < m.rows_.length then m
  else { m with
    rows_ := m.rows_ ++ List.replicate (which + 1 - m.rows_.length) defaultRowInfo,
    maximumRows_ := growCapacity m.maximumRows_ (which + 1) }

/-- Modelled from the spec: `fillColumns` — ensure columns `0..which`
exist with default attribute values, growing the column capacity. -/
def fillColumns (m : CoinModel) (which : Nat) : CoinModel :=
  if which < m.columns_.length then m
  else { m with
    columns_ := m.columns_ ++ List.replicate (which + 1 - m.columns_.length) defaultColumnInfo,
    maximumColumns_ := growCapacity m.maximumColumns_ (which + 1) }

/-- Modelled from the spec: `setRowLower(whichRow, rowLower)` — lazily
creates rows up to `whichRow`, then sets the lower bound. -/
def setRowLower (m : CoinModel) (whichRow : Nat) (rowLower : ℚ) : CoinModel :=
  let m1 := m.fillRows whichRow
  { m1 with rows_ := m1.rows_.set whichRow ({ (m1.rowInfoAt whichRow) with lower := rowLower }) }

/-- Modelled from the spec: `setRowUpper(whichRow, rowUpper)`. -/
def setRowUpper (m : CoinModel) (whichRow : Nat) (rowUpper : ℚ) : CoinModel :=
  let m1 := m.fillRows whichRow
  { m1 with rows_ := m1.rows_.set whichRow ({ (m1.rowInfoAt whichRow) with upper := rowUpper }) }

/-- Modelled from the spec: `setRowBounds(whichRow, rowLower, rowUpper)`. -/
def setRowBounds (m : CoinModel) (whichRow : Nat) (rowLower rowUpper : ℚ) : CoinModel :=
  let m1 := m.fillRows whichRow
  let info := { (m1.rowInfoAt whichRow) with lower := rowLower, upper := rowUpper }
  { m1 with rows_ := m1.rows_.set whichRow info }

/-- Modelled from the spec: `setRowName(whichRow, rowName)`. -/
def setRowName (m : CoinModel) (whichRow : Nat) (rowName : String) : CoinModel :=
  let m1 := m.fillRows whichRow
  { m1 with rows_ := m1.rows_.set whichRow ({ (m1.rowInfoAt whichRow) with rname := rowName }) }

/-- Modelled from the spec: `setColumnLower(whichColumn, columnLower)`. -/
def setColumnLower (m : CoinModel) (whichColumn : Nat) (columnLower : ℚ) : CoinModel :=
  let m1 := m.fillColumns whichColumn
  let info := { (m1.columnInfoAt whichColumn) with lower := columnLower }
  { m1 with columns_ := m1.columns_.set whichColumn info }

/-- Modelled from the spec: `setColumnUpper(whichColumn, columnUpper)`. -/
def setColumnUpper (m : CoinModel) (whichColumn : Nat) (columnUpper : ℚ) : CoinModel :=
  let m1 := m.fillColumns whichColumn
  let info := { (m1.columnInfoAt whichColumn) with upper := columnUpper }
  { m1 with columns_ := m1.columns_.set whichColumn info }

/-- Modelled from the spec: `setColumnBounds(whichColumn, lower, upper)`. -/
def setColumnBounds (m : CoinModel) (whichColumn : Nat) (columnLower columnUpper : ℚ) :
    CoinModel :=
  let m1 := m.fillColumns whichColumn
  let info := { (m1.columnInfoAt whichColumn) with lower := columnLower, upper := columnUpper }
  { m1 with columns_ := m1.columns_.set whichColumn info }

/-- Modelled from the spec: `setColumnObjective(whichColumn, columnObjective)`. -/
def setColumnObjective (m : CoinModel) (whichColumn : Nat) (columnObjective : ℚ) : CoinModel :=
  let m1 := m.fillColumns whichColumn
  let info := { (m1.columnInfoAt whichColumn) with objective := columnObjective }
  { m1 with columns_ := m1.columns_.set whichColumn info }

/-- Modelled from the spec: `setColumnName(whichColumn, columnName)`. -/
def setColumnName (m : CoinModel) (whichColumn : Nat) (columnName : String) : CoinModel :=
  let m1 := m.fillColumns whichColumn
  let info := { (m1.columnInfoAt whichColumn) with cname := columnName }
  { m1 with columns_ := m1.columns_.set whichColumn info }

/-- Modelled from the spec: `setColumnIsInteger(whichColumn, columnIsInteger)`. -/
def setColumnIsInteger (m : CoinModel) (whichColumn : Nat) (columnIsInteger : Bool) :
    CoinModel :=
  let m1 := m.fillColumns whichColumn
  let info := { (m1.columnInfoAt whichColumn) with isInteger := columnIsInteger }
  { m1 with columns_ := m1.columns_.set whichColumn info }

/-- Modelled from the spec: the upsert at the heart of `setElement` (spec
section 4.1) — overwrite in place when `(i, j)` is present (no structural
change); otherwise lazily create row `i` and column `j`, append a fresh
triple at the tail (so at the tail of both its row list and column list)
and grow the element capacity by the documented policy. -/
def setElementValue (m : CoinModel) (i j : Nat) (v : CoinValue) : CoinModel :=
  match setInList m.elements_ i j v with
  | some es => { m with elements_ := es }
  | none =>
    let m1 := (m.fillRows i).fillColumns j
    { m1 with
      elements_ := m1.elements_ ++ [some ⟨i, j, v⟩],
      maximumElements_ := growCapacity m1.maximumElements_ (m1.elements_.length + 1) }

/-- Modelled from the spec: `setElement(i, j, value)` with a numeric value. -/
def setElement (m : CoinModel) (i j : Nat) (value : ℚ) : CoinModel :=
  m.setElementValue i j (CoinValue.num value)

/-- Modelled from the spec: `setElement(i, j, value)` with a string value
(spec section 4.5) — the value slot stores the string id; a string not yet
in the pool is interned (bound to 0 until a later `associateElement`). -/
def setElementString (m : CoinModel) (i j : Nat) (value : String) : CoinModel :=
  match stringId m.string_ value with
  | some id => m.setElementValue i j (CoinValue.str id)
  | none =>
    { m with string_ := m.string_ ++ [(value, 0)] }.setElementValue i j
      (CoinValue.str m.string_.length)

/-- Modelled from the spec: `associateElement(stringValue, value)` — interns
the string (first occurrence creates a new id bound to `value`), returns the
string id; re-association overwrites the bound value of the existing id. -/
def associateElement (m : CoinModel) (stringValue : String) (value : ℚ) :
    CoinModel × Int :=
  match stringId m.string_ stringValue with
  | some id => ({ m with string_ := m.string_.set id (stringValue, value) }, (id : Int))
  | none => ({ m with string_ := m.string_ ++ [(stringValue, value)] },
             (m.string_.length : Int))

/-- Modelled from the spec: `setQuadraticElement(i, j, value)` — the same
upsert on the independent quadratic store (spec section 4.7). -/
def setQuadraticElement (m : CoinModel) (i j : Nat) (value : ℚ) : CoinModel :=
  match setInList m.quadraticElements_ i j (CoinValue.num value) with
  | some es => { m with quadraticElements_ := es }
  | none =>
    let m1 := (m.fillColumns i).fillColumns j
    { m1 with
      quadraticElements_ := m1.quadraticElements_ ++ [some ⟨i, j, CoinValue.num value⟩],
      maximumQuadraticElements_ :=
        growCapacity m1.maximumQuadraticElements_ (m1.quadraticElements_.length + 1) }

/-- Modelled from the spec: `addRow(numberInRow, columns, elements,
rowLower, rowUpper, name)` — creates the row at the next row index with the
given bounds and name, then inserts each `(column, value)` pair through the
element-store upsert, auto-creating referenced columns (spec section 4.3). -/
def addRow (m : CoinModel) (entries : List (Nat × ℚ)) (rowLower rowUpper : ℚ)
    (rowName : String) : CoinModel :=
  let r := m.numberRows
  let m1 := m.fillRows r
  let m2 := { m1 with rows_ := m1.rows_.set r ⟨rowLower, rowUpper, rowName⟩ }
  entries.foldl (fun acc p => acc.setElementValue r p.1 (CoinValue.num p.2)) m2

/-- Modelled from the spec: `addColumn(numberInColumn, rows, elements,
columnLower, columnUpper, objectiveValue, name, isInteger)` — the mirror of
`addRow`. -/
def addColumn (m : CoinModel) (entries : List (Nat × ℚ))
    (columnLower columnUpper objectiveValue : ℚ) (columnName : String)
    (isInteger : Bool) : CoinModel :=
  let c := m.numberColumns
  let m1 := m.fillColumns c
  let newcols := m1.columns_.set c ⟨columnLower, columnUpper, objectiveValue, columnName, isInteger⟩
  let m2 := { m1 with columns_ := newcols }
  entries.foldl (fun acc p => acc.setElementValue p.1 c (CoinValue.num p.2)) m2

/-- Modelled from the spec: `deleteRow(whichRow)` — removes every element
owned by the row (their slots become holes), clears the row's bounds and
name; only when the row is the current last row is the row count
decremented; the operation reports success either way (spec section 4.6). -/
def deleteRow (m : CoinModel) (whichRow : Nat) : CoinModel × Bool :=
  let es := m.elements_.map (fun e =>
    match e with
    | some t => if t.row == whichRow then none else some t
    | none => none)
  if whichRow + 1 = m.rows_.length then
    ({ m with rows_ := m.rows_.take whichRow, elements_ := es }, true)
  else if whichRow < m.rows_.length then
    ({ m with rows_ := m.rows_.set whichRow defaultRowInfo, elements_ := es }, true)
  else (m, false)

/-- Modelled from the spec: `deleteColumn(whichColumn)` — the mirror. -/
def deleteColumn (m : CoinModel) (whichColumn : Nat) : CoinModel × Bool :=
  let es := m.elements_.map (fun e =>
    match e with
    | some t => if t.column == whichColumn then none else some t
    | none => none)
  if whichColumn + 1 = m.columns_.length then
    ({ m with columns_ := m.columns_.take whichColumn, elements_ := es }, true)
  else if whichColumn < m.columns_.length then
    ({ m with columns_ := m.columns_.set whichColumn defaultColumnInfo, elements_ := es },
     true)
  else (m, false)

/-- Does row `i` own no live element? -/
def rowHasNoElements (m : CoinModel) (i : Nat) : Bool :=
  m.elements_.all (fun e =>
    match e with
    | some t => !(t.row == i)
    | none => true)

/-- Does column `j` own no live element? -/
def columnHasNoElements (m : CoinModel) (j : Nat) : Bool :=
  m.elements_.all (fun e =>
    match e with
    | some t => !(t.column == j)
    | none => true)

/-- Modelled from the spec: a hole row — no elements and default (trivially
feasible) bounds (spec section 4.6); such rows are removed by `packRows`. -/
def rowIsHole (m : CoinModel) (i : Nat) : Bool :=
  m.rowHasNoElements i
    && decide ((m.rowInfoAt i).lower = -COIN_DBL_MAX)
    && decide ((m.rowInfoAt i).upper = COIN_DBL_MAX)

/-- Modelled from the spec: a hole column — no elements and default
(trivially feasible) bounds. -/
def columnIsHole (m : CoinModel) (j : Nat) : Bool :=
  m.columnHasNoElements j
    && decide ((m.columnInfoAt j).lower = 0)
    && decide ((m.columnInfoAt j).upper = COIN_DBL_MAX)

/-- New index of surviving row `i` after `packRows`: the number of
surviving rows before `i`. -/
def rowRenum (m : CoinModel) (i : Nat) : Nat :=
  ((List.range i).filter (fun j => !(m.rowIsHole j))).length

/-- New index of surviving column `j` after `packColumns`. -/
def columnRenum (m : CoinModel) (j : Nat) : Nat :=
  ((List.range j).filter (fun i => !(m.columnIsHole i))).length

/-- Modelled from the spec: `packRows()` — removes the hole rows
permanently, renumbers every surviving row and every element's row index,
reclaims element holes, and returns the number of rows deleted. -/
def packRows (m : CoinModel) : CoinModel × Nat :=
  let keep := (List.range m.rows_.length).filter (fun i => !(m.rowIsHole i))
  ({ m with
     rows_ := keep.map (fun i => m.rowInfoAt i),
     elements_ := (m.liveTriples).map (fun t => some { t with row := m.rowRenum t.row }) },
   m.rows_.length - keep.length)

/-- Modelled from the spec: `packColumns()` — the mirror. -/
def packColumns (m : CoinModel) : CoinModel × Nat :=
  let keep := (List.range m.columns_.length).filter (fun j => !(m.columnIsHole j))
  ({ m with
     columns_ := keep.map (fun j => m.columnInfoAt j),
     elements_ :=
       (m.liveTriples).map (fun t => some { t with column := m.columnRenum t.column }) },
   m.columns_.length - keep.length)

/-- Modelled from the spec: `pack()` — packs rows then columns, returning
the number of rows plus columns deleted. -/
def pack (m : CoinModel) : CoinModel × Nat :=
  let pr := m.packRows
  let pc := pr.1.packColumns
  (pc.1, pr.2 + pc.2)

/-- Resolve a value slot: a numeric slot is its number, a string slot is the
numeric value bound to the string id in the pool (spec section 4.5). -/
def resolveValue (m : CoinModel) : CoinValue → ℚ
  | CoinValue.num v => v
  | CoinValue.str id => (m.string_.getD id ("", 0)).2

/-- First live triple at coordinate `(i, j)`, the coordinate-hash lookup. -/
def getTriple (m : CoinModel) (i j : Nat) : Option CoinModelTriple :=
  (findLive m.elements_ (matchesRC i j)).map (fun q => q.2)

/-- Modelled from the spec: `getElement(i, j)` — the element's (resolved)
numeric value, or 0 when the cell is absent. -/
def getElement (m : CoinModel) (i j : Nat) : ℚ :=
  match m.getTriple i j with
  | some t => m.resolveValue t.value
  | none => 0

/-- Modelled from the spec: `getElementAsString(i, j)` — the original text
of a string-valued cell, empty when absent or numeric. -/
def getElementAsString (m : CoinModel) (i j : Nat) : String :=
  match m.getTriple i j with
  | some t =>
    match t.value with
    | CoinValue.str id => (m.string_.getD id ("", 0)).1
    | CoinValue.num _ => ""
  | none => ""

/-- Modelled from the spec: `getQuadraticElement(i, j)`. -/
def getQuadraticElement (m : CoinModel) (i j : Nat) : ℚ :=
  match (findLive m.quadraticElements_ (matchesRC i j)).map (fun q => q.2) with
  | some t => m.resolveValue t.value
  | none => 0

/-- Modelled from the spec: `getRowLower(whichRow)` — `-COIN_DBL_MAX` when
the row does not exist. -/
def getRowLower (m : CoinModel) (whichRow : Nat) : ℚ := (m.rowInfoAt whichRow).lower

/-- Modelled from the spec: `getRowUpper(whichRow)` — `COIN_DBL_MAX` when
the row does not exist. -/
def getRowUpper (m : CoinModel) (whichRow : Nat) : ℚ := (m.rowInfoAt whichRow).upper

/-- Modelled from the spec: `getRowName(whichRow)` — empty when the row
does not exist. -/
def getRowName (m : CoinModel) (whichRow : Nat) : String := (m.rowInfoAt whichRow).rname

/-- Modelled from the spec: `getColumnLower(whichColumn)` — 0 when the
column does not exist. -/
def getColumnLower (m : CoinModel) (whichColumn : Nat) : ℚ :=
  (m.columnInfoAt whichColumn).lower

/-- Modelled from the spec: `getColumnUpper(whichColumn)` — `COIN_DBL_MAX`
when the column does not exist. -/
def getColumnUpper (m : CoinModel) (whichColumn : Nat) : ℚ :=
  (m.columnInfoAt whichColumn).upper

/-- Modelled from the spec: `getColumnObjective(whichColumn)` — 0 when the
column does not exist. -/
def getColumnObjective (m : CoinModel) (whichColumn : Nat) : ℚ :=
  (m.columnInfoAt whichColumn).objective

/-- Modelled from the spec: `getColumnName(whichColumn)` — empty when the
column does not exist. -/
def getColumnName (m : CoinModel) (whichColumn : Nat) : String :=
  (m.columnInfoAt whichColumn).cname

/-- Modelled from the spec: `getColumnIsInteger(whichColumn)` — false when
the column does not exist. -/
def getColumnIsInteger (m : CoinModel) (whichColumn : Nat) : Bool :=
  (m.columnInfoAt whichColumn).isInteger

/-- Modelled from the spec: `firstInRow(whichRow)` — cursor to the head of
the row's list, absent sentinel (`-1`) when the row has no elements. -/
def firstInRow (m : CoinModel) (whichRow : Nat) : CoinModelLink :=
  match findLive m.elements_ (fun t => t.row == whichRow) with
  | some q => ⟨(q.1 : Int), (q.2.row : Int), (q.2.column : Int), true, m.resolveValue q.2.value⟩
  | none => absentLink true

/-- Modelled from the spec: `lastInRow(whichRow)`. -/
def lastInRow (m : CoinModel) (whichRow : Nat) : CoinModelLink :=
  match findLiveLast m.elements_ (fun t => t.row == whichRow) with
  | some q => ⟨(q.1 : Int), (q.2.row : Int), (q.2.column : Int), true, m.resolveValue q.2.value⟩
  | none => absentLink true

/-- Modelled from the spec: `firstInColumn(whichColumn)`. -/
def firstInColumn (m : CoinModel) (whichColumn : Nat) : CoinModelLink :=
  match findLive m.elements_ (fun t => t.column == whichColumn) with
  | some q => ⟨(q.1 : Int), (q.2.row : Int), (q.2.column : Int), false, m.resolveValue q.2.value⟩
  | none => absentLink false

/-- Modelled from the spec: `lastInColumn(whichColumn)`. -/
def lastInColumn (m : CoinModel) (whichColumn : Nat) : CoinModelLink :=
  match findLiveLast m.elements_ (fun t => t.column == whichColumn) with
  | some q => ⟨(q.1 : Int), (q.2.row : Int), (q.2.column : Int), false, m.resolveValue q.2.value⟩
  | none => absentLink false

/-- Modelled from the spec: `next(current)` — the next element in the
cursor's own list (row list or column list as recorded in the cursor),
absent sentinel at the boundary. -/
def next (m : CoinModel) (current : CoinModelLink) : CoinModelLink :=
  if current.element_ < 0 then absentLink current.onRow_
  else
    let pos := current.element_.toNat
    let p : CoinModelTriple → Bool :=
      if current.onRow_ then fun t => ((t.row : Int) == current.row_)
      else fun t => ((t.column : Int) == current.column_)
    match findLive (m.elements_.drop (pos + 1)) p with
    | some q =>
      ⟨((pos + 1 + q.1 : Nat) : Int), (q.2.row : Int), (q.2.column : Int),
       current.onRow_, m.resolveValue q.2.value⟩
    | none => absentLink current.onRow_

/-- Modelled from the spec: `previous(current)` — the mirror of `next`. -/
def previous (m : CoinModel) (current : CoinModelLink) : CoinModelLink :=
  if current.element_ < 0 then absentLink current.onRow_
  else
    let pos := current.element_.toNat
    let p : CoinModelTriple → Bool :=
      if current.onRow_ then fun t => ((t.row : Int) == current.row_)
      else fun t => ((t.column : Int) == current.column_)
    match findLiveLast (m.elements_.take pos) p with
    | some q =>
      ⟨((q.1 : Nat) : Int), (q.2.row : Int), (q.2.column : Int),
       current.onRow_, m.resolveValue q.2.value⟩
    | none => absentLink current.onRow_

/-- `k` steps of `next` from `firstInRow whichRow`. -/
def rowTraversal (m : CoinModel) (whichRow : Nat) : Nat → CoinModelLink
  | 0 => m.firstInRow whichRow
  | k + 1 => m.next (m.rowTraversal whichRow k)

/-- Inline in the header: `addCol` forwards to `addColumn`. -/
def addCol (m : CoinModel) (entries : List (Nat × ℚ))
    (columnLower columnUpper objectiveValue : ℚ) (columnName : String)
    (isInteger : Bool) : CoinModel :=
  m.addColumn entries columnLower columnUpper objectiveValue columnName isInteger

/-- Inline in the header: `operator()(i, j, value)` forwards to `setElement`. -/
def parenAssign (m : CoinModel) (i j : Nat) (value : ℚ) : CoinModel :=
  m.setElement i j value

/-- Inline in the header: `setColLower` forwards to `setColumnLower`. -/
def setColLower (m : CoinModel) (whichColumn : Nat) (columnLower : ℚ) : CoinModel :=
  m.setColumnLower whichColumn columnLower

/-- Inline in the header: `setColUpper` forwards to `setColumnUpper`. -/
def setColUpper (m : CoinModel) (whichColumn : Nat) (columnUpper : ℚ) : CoinModel :=
  m.setColumnUpper whichColumn columnUpper

/-- Inline in the header: `setColBounds` forwards to `setColumnBounds`. -/
def setColBounds (m : CoinModel) (whichColumn : Nat) (columnLower columnUpper : ℚ) :
    CoinModel :=
  m.setColumnBounds whichColumn columnLower columnUpper

/-- Inline in the header: `setColObjective` forwards to `setColumnObjective`. -/
def setColObjective (m : CoinModel) (whichColumn : Nat) (columnObjective : ℚ) : CoinModel :=
  m.setColumnObjective whichColumn columnObjective

/-- Inline in the header: `setColName` forwards to `setColumnName`. -/
def setColName (m : CoinModel) (whichColumn : Nat) (columnName : String) : CoinModel :=
  m.setColumnName whichColumn columnName

/-- Inline in the header: `setColIsInteger` forwards to `setColumnIsInteger`. -/
def setColIsInteger (m : CoinModel) (whichColumn : Nat) (columnIsInteger : Bool) :
    CoinModel :=
  m.setColumnIsInteger whichColumn columnIsInteger

/-- Inline in the header: `deleteCol` forwards to `deleteColumn`. -/
def deleteCol (m : CoinModel) (whichColumn : Nat) : CoinModel × Bool :=
  m.deleteColumn whichColumn

/-- Inline in the header: `packCols` forwards to `packColumns`. -/
def packCols (m : CoinModel) : CoinModel × Nat :=
  m.packColumns

/-- Inline in the header: `getColLower` forwards to `getColumnLower`. -/
def getColLower (m : CoinModel) (whichColumn : Nat) : ℚ := m.getColumnLower whichColumn

/-- Inline in the header: `getColUpper` forwards to `getColumnUpper`. -/
def getColUpper (m : CoinModel) (whichColumn : Nat) : ℚ := m.getColumnUpper whichColumn

/-- Inline in the header: `getColObjective` forwards to `getColumnObjective`. -/
def getColObjective (m : CoinModel) (whichColumn : Nat) : ℚ :=
  m.getColumnObjective whichColumn

/-- Inline in the header: `getColName` forwards to `getColumnName`. -/
def getColName (m : CoinModel) (whichColumn : Nat) : String := m.getColumnName whichColumn

/-- Inline in the header: `getColIsInteger` forwards to `getColumnIsInteger`. -/
def getColIsInteger (m : CoinModel) (whichColumn : Nat) : Bool :=
  m.getColumnIsInteger whichColumn

end CoinModel

namespace CoinModel

/-- Coordinate of a triple. -/
def coordsOf (t : CoinModelTriple) : Nat × Nat := (t.row, t.column)

/-- The live elements hold pairwise distinct coordinates (spec section 3:
every live element "has exactly one entry in the Coordinate Index keyed by
its (row, column) pair"). -/
def goodCoords (m : CoinModel) : Prop := (m.liveTriples.map coordsOf).Nodup

instance (m : CoinModel) : Decidable m.goodCoords := by
  unfold goodCoords; infer_instance

/-- Row `k` carries the default attributes: bounds
`(-COIN_DBL_MAX, COIN_DBL_MAX)` and empty name. -/
def rowDefaultsAt (m : CoinModel) (k : Nat) : Prop :=
  m.getRowLower k = -COIN_DBL_MAX ∧ m.getRowUpper k = COIN_DBL_MAX ∧ m.getRowName k = ""

/-- Column `k` carries the default attributes. -/
def columnDefaultsAt (m : CoinModel) (k : Nat) : Prop :=
  m.getColumnLower k = 0 ∧ m.getColumnUpper k = COIN_DBL_MAX ∧
  m.getColumnObjective k = 0 ∧ m.getColumnName k = "" ∧ m.getColumnIsInteger k = false

/-- A row-attribute setter `f` lazily extends the model to `idx + 1` rows,
the intervening rows getting default attributes (spec section 4.4). -/
def rowLazyExtends (m : CoinModel) (f : CoinModel → CoinModel) (idx : Nat) : Prop :=
  (f m).numberRows = idx + 1 ∧
  ∀ k, m.numberRows ≤ k → k < idx → rowDefaultsAt (f m) k

/-- A column-attribute setter `f` lazily extends the model to `idx + 1`
columns, the intervening columns getting default attributes. -/
def columnLazyExtends (m : CoinModel) (f : CoinModel → CoinModel) (idx : Nat) : Prop :=
  (f m).numberColumns = idx + 1 ∧
  ∀ k, m.numberColumns ≤ k → k < idx → columnDefaultsAt (f m) k

/-- The count-capacity invariant of the aggregate (spec section 3). -/
def Good (m : CoinModel) : Prop :=
  m.numberRows ≤ m.maximumRows_ ∧ m.numberColumns ≤ m.maximumColumns_ ∧
  m.numberElements ≤ m.maximumElements_ ∧
  m.numberQuadraticElements ≤ m.maximumQuadraticElements_

instance (m : CoinModel) : Decidable m.Good := by
  unfold Good; infer_instance

/-- No capacity decreases from `m` to `m2`. -/
def capsLE (m m2 : CoinModel) : Prop :=
  m.maximumRows_ ≤ m2.maximumRows_ ∧ m.maximumColumns_ ≤ m2.maximumColumns_ ∧
  m.maximumElements_ ≤ m2.maximumElements_ ∧
  m.maximumQuadraticElements_ ≤ m2.maximumQuadraticElements_

instance (m m2 : CoinModel) : Decidable (m.capsLE m2) := by
  unfold capsLE; infer_instance

/-- The model states reachable from the default constructor through the
public mutation surface (spec section 6). -/
inductive Reachable : CoinModel → Prop
  | init : Reachable CoinModel.init
  | addRow (m) (entries lo hi nm) : Reachable m → Reachable (m.addRow entries lo hi nm)
  | addColumn (m) (entries lo hi ob nm b) : Reachable m →
      Reachable (m.addColumn entries lo hi ob nm b)
  | setElement (m) (i j v) : Reachable m → Reachable (m.setElement i j v)
  | setElementString (m) (i j s) : Reachable m → Reachable (m.setElementString i j s)
  | setQuadraticElement (m) (i j v) : Reachable m → Reachable (m.setQuadraticElement i j v)
  | associateElement (m) (s v) : Reachable m → Reachable (m.associateElement s v).1
  | setRowLower (m) (i x) : Reachable m → Reachable (m.setRowLower i x)
  | setRowUpper (m) (i x) : Reachable m → Reachable (m.setRowUpper i x)
  | setRowBounds (m) (i x y) : Reachable m → Reachable (m.setRowBounds i x y)
  | setRowName (m) (i nm) : Reachable m → Reachable (m.setRowName i nm)
  | setColumnLower (m) (i x) : Reachable m → Reachable (m.setColumnLower i x)
  | setColumnUpper (m) (i x) : Reachable m → Reachable (m.setColumnUpper i x)
  | setColumnBounds (m) (i x y) : Reachable m → Reachable (m.setColumnBounds i x y)
  | setColumnObjective (m) (i x) : Reachable m → Reachable (m.setColumnObjective i x)
  | setColumnName (m) (i nm) : Reachable m → Reachable (m.setColumnName i nm)
  | setColumnIsInteger (m) (i b) : Reachable m → Reachable (m.setColumnIsInteger i b)
  | deleteRow (m) (i) : Reachable m → Reachable (m.deleteRow i).1
  | deleteColumn (m) (i) : Reachable m → Reachable (m.deleteColumn i).1
  | packRows (m) : Reachable m → Reachable m.packRows.1
  | packColumns (m) : Reachable m → Reachable m.packColumns.1
  | pack (m) : Reachable m → Reachable m.pack.1

end CoinModel


/-- A small sample model used by the concrete witnesses: the two-row
scenario of spec section 8. -/
def sampleModel : CoinModel :=
  (CoinModel.init.addRow [(0, 1), (2, 3)] 0 10 "r0").addRow [(1, 2)] (-5) 5 "r1"

/-- The sample model after deleting row 0: row 0 and columns 0 and 2
become holes. -/
def packSampleModel : CoinModel := (sampleModel.deleteRow 0).1

/-- Live membership in a slot list. -/
theorem mem_live_iff {es : List (Option CoinModelTriple)} {t : CoinModelTriple} :
    t ∈ es.filterMap id ↔ some t ∈ es := by
  simp [List.mem_filterMap]

/-- `getD` on a replicated list inside its range. -/
theorem getD_replicate_of_lt {α : Type} {k n : Nat} (d dd : α) (h : n < k) :
    (List.replicate k d).getD n dd = d := by
  simp [List.getD, List.getElem?_replicate, h]

/-- `getD` after `set` at a different index. -/
theorem getD_set_of_ne {α : Type} {l : List α} {i j : Nat} (a d : α) (h : i ≠ j) :
    (l.set i a).getD j d = l.getD j d := by
  simp [List.getD, List.getElem?_set_ne h]

/-- `getD` after `set` at the same (in-range) index. -/
theorem getD_set_of_eq {α : Type} {l : List α} {i : Nat} (a d : α) (h : i < l.length) :
    (l.set i a).getD i d = a := by
  simp [List.getD, List.getElem?_set_self, h]

/-- A slot list none of whose live triples satisfies `p` has no first match. -/
theorem findLive_eq_none {es : List (Option CoinModelTriple)} {p : CoinModelTriple → Bool}
    (h : ∀ t, some t ∈ es → p t = false) : findLive es p = none := by
  induction es with
  | nil => rfl
  | cons e rest ih =>
    have hrest : findLive rest p = none :=
      ih (fun t ht => h t (List.mem_cons_of_mem _ ht))
    cases e with
    | none => simp [findLive, hrest]
    | some t =>
      have hp := h t (List.mem_cons_self _ _)
      simp [findLive, hrest, hp]

/-- A slot list none of whose live triples satisfies `p` has no last match. -/
theorem findLiveLast_eq_none {es : List (Option CoinModelTriple)} {p : CoinModelTriple → Bool}
    (h : ∀ t, some t ∈ es → p t = false) : findLiveLast es p = none := by
  induction es with
  | nil => rfl
  | cons e rest ih =>
    have hrest : findLiveLast rest p = none :=
      ih (fun t ht => h t (List.mem_cons_of_mem _ ht))
    cases e with
    | none => simp [findLiveLast, hrest]
    | some t =>
      have hp := h t (List.mem_cons_self _ _)
      simp [findLiveLast, hrest, hp]

/-- The first live match, projected to its triple, is `find?` over the live
triples. -/
theorem findLive_map_snd (es : List (Option CoinModelTriple)) (p : CoinModelTriple → Bool) :
    (findLive es p).map (fun q => q.2) = (es.filterMap id).find? p := by
  induction es with
  | nil => rfl
  | cons e rest ih =>
    cases e with
    | none =>
      cases hr : findLive rest p with
      | none => simp_all [findLive, hr]
      | some q => simp_all [findLive, hr]
    | some t =>
      by_cases hp : p t
      · simp [findLive, hp, List.find?_cons_of_pos _ hp]
      · cases hr : findLive rest p with
        | none => simp_all [findLive, List.find?_cons_of_neg _ hp]
        | some q => simp_all [findLive, List.find?_cons_of_neg _ hp]

/-- A first match stays the first match after appending. -/
theorem findLive_append_of_some {es es2 : List (Option CoinModelTriple)}
    {p : CoinModelTriple → Bool} {q : Nat × CoinModelTriple}
    (h : findLive es p = some q) : findLive (es ++ es2) p = some q := by
  induction es generalizing q with
  | nil => simp [findLive] at h
  | cons e rest ih =>
    cases e with
    | none =>
      simp only [findLive, Option.map_eq_some'] at h
      obtain ⟨q1, hq1, rfl⟩ := h
      simp only [List.cons_append, findLive, List.append_eq, ih hq1, Option.map_some']
    | some t =>
      by_cases hp : p t
      · simp only [findLive, hp, if_true] at h
        simp [List.cons_append, findLive, hp, ← h]
      · simp only [findLive, hp, Bool.false_eq_true, if_false, Option.map_eq_some'] at h
        obtain ⟨q1, hq1, rfl⟩ := h
        simp only [List.cons_append, findLive, List.append_eq, hp, Bool.false_eq_true,
          if_false, ih hq1, Option.map_some']

/-- With no match in the front part, the first match comes from the back
part shifted by the front's length. -/
theorem findLive_append_of_none {es es2 : List (Option CoinModelTriple)}
    {p : CoinModelTriple → Bool} (h : findLive es p = none) :
    findLive (es ++ es2) p =
      (findLive es2 p).map (fun q => (q.1 + es.length, q.2)) := by
  induction es with
  | nil => cases hq : findLive es2 p <;> simp [hq]
  | cons e rest ih =>
    cases e with
    | none =>
      simp only [findLive, Option.map_eq_none'] at h
      simp only [List.cons_append, findLive, List.append_eq, ih h, Option.map_map]
      cases hq : findLive es2 p with
      | none => simp
      | some q =>
        simp only [Option.map_some', Function.comp, Option.some.injEq, Prod.mk.injEq,
          and_true, List.length_cons]
        omega
    | some t =>
      by_cases hp : p t
      · simp [findLive, hp] at h
      · simp only [findLive, hp, Bool.false_eq_true, if_false, Option.map_eq_none'] at h
        simp only [List.cons_append, findLive, List.append_eq, hp, Bool.false_eq_true,
          if_false, ih h, Option.map_map]
        cases hq : findLive es2 p with
        | none => simp
        | some q =>
          simp only [Option.map_some', Function.comp, Option.some.injEq, Prod.mk.injEq,
            and_true, List.length_cons]
          omega

/-- The in-place overwrite fails exactly when the coordinate has no first
match. -/
theorem setInList_eq_none_iff {es : List (Option CoinModelTriple)} {i j : Nat}
    {v : CoinValue} :
    setInList es i j v = none ↔ findLive es (matchesRC i j) = none := by
  induction es with
  | nil => simp [setInList, findLive]
  | cons e rest ih =>
    cases e with
    | none => simp [setInList, findLive, ih]
    | some t =>
      by_cases hp : matchesRC i j t
      · simp [setInList, findLive, hp]
      · simp [setInList, findLive, hp, ih]

/-- The in-place overwrite keeps the number of slots. -/
theorem setInList_length {es es2 : List (Option CoinModelTriple)} {i j : Nat}
    {v : CoinValue} (h : setInList es i j v = some es2) : es2.length = es.length := by
  induction es generalizing es2 with
  | nil => simp [setInList] at h
  | cons e rest ih =>
    cases e with
    | none =>
      simp only [setInList, Option.map_eq_some'] at h
      obtain ⟨l1, hl1, rfl⟩ := h
      simp [ih hl1]
    | some t =>
      by_cases hp : matchesRC i j t
      · simp only [setInList, hp, if_true, Option.some.injEq] at h
        simp [← h]
      · simp only [setInList, hp, Bool.false_eq_true, if_false, Option.map_eq_some'] at h
        obtain ⟨l1, hl1, rfl⟩ := h
        simp [ih hl1]

/-- After a successful in-place overwrite, the first match at the
coordinate is the freshly written triple. -/
theorem findLive_setInList {es es2 : List (Option CoinModelTriple)} {i j : Nat}
    {v : CoinValue} (h : setInList es i j v = some es2) :
    (findLive es2 (matchesRC i j)).map (fun q => q.2) = some ⟨i, j, v⟩ := by
  induction es generalizing es2 with
  | nil => simp [setInList] at h
  | cons e rest ih =>
    cases e with
    | none =>
      simp only [setInList, Option.map_eq_some'] at h
      obtain ⟨l1, hl1, rfl⟩ := h
      simpa [findLive, Option.map_map] using ih hl1
    | some t =>
      by_cases hp : matchesRC i j t
      · simp only [setInList, hp, if_true, Option.some.injEq] at h
        have hrow : t.row = i ∧ t.column = j := by
          simpa [matchesRC] using hp
        subst h
        have hp2 : matchesRC i j { t with value := v } = true := by
          simp [matchesRC, hrow.1, hrow.2]
        simp only [findLive, hp2, if_true, Option.map_some']
        cases t with
        | mk tr tc tv =>
          simp only at hrow
          simp [hrow.1, hrow.2]
      · simp only [setInList, hp, Bool.false_eq_true, if_false, Option.map_eq_some'] at h
        obtain ⟨l1, hl1, rfl⟩ := h
        simpa [findLive, hp, Option.map_map] using ih hl1

namespace CoinModel

/-- `fillRows` leaves the column table unchanged. -/
theorem fillRows_columns (m : CoinModel) (i : Nat) : (m.fillRows i).columns_ = m.columns_ := by
  unfold fillRows; split <;> rfl

/-- `fillRows` leaves the element store unchanged. -/
theorem fillRows_elements (m : CoinModel) (i : Nat) :
    (m.fillRows i).elements_ = m.elements_ := by
  unfold fillRows; split <;> rfl

/-- `fillRows` leaves the string pool unchanged. -/
theorem fillRows_string (m : CoinModel) (i : Nat) : (m.fillRows i).string_ = m.string_ := by
  unfold fillRows; split <;> rfl

/-- `fillRows` leaves the quadratic store unchanged. -/
theorem fillRows_quadratic (m : CoinModel) (i : Nat) :
    (m.fillRows i).quadraticElements_ = m.quadraticElements_ := by
  unfold fillRows; split <;> rfl

/-- `fillColumns` leaves the row table unchanged. -/
theorem fillColumns_rows (m : CoinModel) (i : Nat) : (m.fillColumns i).rows_ = m.rows_ := by
  unfold fillColumns; split <;> rfl

/-- `fillColumns` leaves the element store unchanged. -/
theorem fillColumns_elements (m : CoinModel) (i : Nat) :
    (m.fillColumns i).elements_ = m.elements_ := by
  unfold fillColumns; split <;> rfl

/-- `fillColumns` leaves the string pool unchanged. -/
theorem fillColumns_string (m : CoinModel) (i : Nat) :
    (m.fillColumns i).string_ = m.string_ := by
  unfold fillColumns; split <;> rfl

/-- `fillColumns` leaves the quadratic store unchanged. -/
theorem fillColumns_quadratic (m : CoinModel) (i : Nat) :
    (m.fillColumns i).quadraticElements_ = m.quadraticElements_ := by
  unfold fillColumns; split <;> rfl

/-- The upsert leaves the string pool unchanged. -/
theorem setElementValue_string (m : CoinModel) (i j : Nat) (v : CoinValue) :
    (m.setElementValue i j v).string_ = m.string_ := by
  unfold setElementValue
  cases h : setInList m.elements_ i j v with
  | some es => rfl
  | none => simp [fillColumns_string, fillRows_string]

/-- After the upsert, the lookup at the written coordinate yields exactly
the written triple. -/
theorem getTriple_setElementValue (m : CoinModel) (i j : Nat) (v : CoinValue) :
    (m.setElementValue i j v).getTriple i j = some ⟨i, j, v⟩ := by
  unfold setElementValue getTriple
  cases h : setInList m.elements_ i j v with
  | some es => simpa using findLive_setInList h
  | none =>
    have hnone : findLive m.elements_ (matchesRC i j) = none := setInList_eq_none_iff.mp h
    simp only [fillColumns_elements, fillRows_elements]
    rw [findLive_append_of_none hnone]
    simp [findLive, matchesRC]

/-- A present coordinate makes the upsert overwrite in place, leaving the
slot count unchanged. -/
theorem setElementValue_numberElements_of_present (m : CoinModel) (i j : Nat)
    (v : CoinValue) (h : findLive m.elements_ (matchesRC i j) ≠ none) :
    (m.setElementValue i j v).numberElements = m.numberElements := by
  unfold setElementValue
  cases hs : setInList m.elements_ i j v with
  | some es => simpa [numberElements] using setInList_length hs
  | none => exact absurd (setInList_eq_none_iff.mp hs) h

/-- An absent coordinate makes the upsert append at the tail. -/
theorem setElementValue_elements_of_absent (m : CoinModel) (i j : Nat) (v : CoinValue)
    (h : findLive m.elements_ (matchesRC i j) = none) :
    (m.setElementValue i j v).elements_ = m.elements_ ++ [some ⟨i, j, v⟩] := by
  unfold setElementValue
  rw [setInList_eq_none_iff.mpr h]
  simp [fillColumns_elements, fillRows_elements]

end CoinModel

/-- C1: for every row `r`, column `c` and value `v`, `setElement(r,c,v)`
followed by `getElement(r,c)` returns `v`; a second `setElement(r,c,v2)` on
the same coordinate leaves `numberElements()` unchanged (overwrite in
place, no structural change) and `getElement(r,c)` returns `v2`
thereafter. -/
theorem setElement_upsert_roundtrip (m : CoinModel) (r c : Nat) (v v2 : ℚ) :
    (m.setElement r c v).getElement r c = v ∧
    ((m.setElement r c v).setElement r c v2).numberElements =
      (m.setElement r c v).numberElements ∧
    ((m.setElement r c v).setElement r c v2).getElement r c = v2 := by
  refine ⟨?_, ?_, ?_⟩
  · show (m.setElementValue r c (CoinValue.num v)).getElement r c = v
    simp [CoinModel.getElement, CoinModel.getTriple_setElementValue, CoinModel.resolveValue]
  · apply CoinModel.setElementValue_numberElements_of_present
    intro hn
    have h1 := CoinModel.getTriple_setElementValue m r c (CoinValue.num v)
    unfold CoinModel.getTriple at h1
    rw [show (m.setElement r c v).elements_ =
        (m.setElementValue r c (CoinValue.num v)).elements_ from rfl] at hn
    rw [hn] at h1
    simp at h1
  · show ((m.setElement r c v).setElementValue r c (CoinValue.num v2)).getElement r c = v2
    simp [CoinModel.getElement, CoinModel.getTriple_setElementValue, CoinModel.resolveValue]

/-- C6: every getter called with an out-of-range index returns its
documented default rather than failing: row lower `-COIN_DBL_MAX` (the
code's stand-in for minus infinity), row upper `COIN_DBL_MAX`, row/column
name empty, column lower 0, column upper `COIN_DBL_MAX`, column objective
0, column integrality false.  (The getters are pure functions of the model,
so they cannot mutate it.) -/
theorem getters_out_of_range_defaults (m : CoinModel) (i j : Nat)
    (hr : m.numberRows ≤ i) (hc : m.numberColumns ≤ j) :
    m.getRowLower i = -COIN_DBL_MAX ∧ m.getRowUpper i = COIN_DBL_MAX ∧
    m.getRowName i = "" ∧ m.getColumnName j = "" ∧
    m.getColumnLower j = 0 ∧ m.getColumnUpper j = COIN_DBL_MAX ∧
    m.getColumnObjective j = 0 ∧ m.getColumnIsInteger j = false := by
  unfold CoinModel.getRowLower CoinModel.getRowUpper CoinModel.getRowName
    CoinModel.getColumnName CoinModel.getColumnLower CoinModel.getColumnUpper
    CoinModel.getColumnObjective CoinModel.getColumnIsInteger CoinModel.rowInfoAt
    CoinModel.columnInfoAt
  rw [List.getD_eq_default _ _ hr, List.getD_eq_default _ _ hc]
  exact ⟨rfl, rfl, rfl, rfl, rfl, rfl, rfl, rfl⟩

/-- Witness for C6 at the empty model and index 0. -/
theorem getters_out_of_range_defaults_witness :
    CoinModel.init.numberRows ≤ 0 ∧ CoinModel.init.numberColumns ≤ 0 ∧
    (CoinModel.init.getRowLower 0 = -COIN_DBL_MAX ∧
     CoinModel.init.getRowUpper 0 = COIN_DBL_MAX ∧
     CoinModel.init.getRowName 0 = "" ∧ CoinModel.init.getColumnName 0 = "" ∧
     CoinModel.init.getColumnLower 0 = 0 ∧
     CoinModel.init.getColumnUpper 0 = COIN_DBL_MAX ∧
     CoinModel.init.getColumnObjective 0 = 0 ∧
     CoinModel.init.getColumnIsInteger 0 = false) :=
  ⟨by decide, by decide,
   getters_out_of_range_defaults CoinModel.init 0 0 (by decide) (by decide)⟩

namespace CoinModel

/-- Lazy creation extends the row table to exactly `idx + 1` entries. -/
theorem fillRows_length {m : CoinModel} {idx : Nat} (h : m.numberRows ≤ idx) :
    (m.fillRows idx).rows_.length = idx + 1 := by
  unfold numberRows at h
  unfold fillRows
  rw [if_neg (by omega)]
  simp only [List.length_append, List.length_replicate]
  omega

/-- Lazily created rows carry the default attributes. -/
theorem fillRows_rowInfoAt_new {m : CoinModel} {idx k : Nat} (h : m.numberRows ≤ k)
    (hk : k ≤ idx) : (m.fillRows idx).rowInfoAt k = defaultRowInfo := by
  unfold numberRows at h
  unfold fillRows rowInfoAt
  rw [if_neg (by omega)]
  simp only
  rw [List.getD_append_right _ _ _ _ h, getD_replicate_of_lt _ _ (by omega)]

/-- Lazy creation extends the column table to exactly `idx + 1` entries. -/
theorem fillColumns_length {m : CoinModel} {idx : Nat} (h : m.numberColumns ≤ idx) :
    (m.fillColumns idx).columns_.length = idx + 1 := by
  unfold numberColumns at h
  unfold fillColumns
  rw [if_neg (by omega)]
  simp only [List.length_append, List.length_replicate]
  omega

/-- Lazily created columns carry the default attributes. -/
theorem fillColumns_columnInfoAt_new {m : CoinModel} {idx k : Nat}
    (h : m.numberColumns ≤ k) (hk : k ≤ idx) :
    (m.fillColumns idx).columnInfoAt k = defaultColumnInfo := by
  unfold numberColumns at h
  unfold fillColumns columnInfoAt
  rw [if_neg (by omega)]
  simp only
  rw [List.getD_append_right _ _ _ _ h, getD_replicate_of_lt _ _ (by omega)]

/-- Any setter whose row table is lazy creation followed by a point update
at the target index satisfies the uniform lazy-extension policy. -/
theorem rowLazyExtends_of_rows_eq (m : CoinModel) (idx : Nat) (f : CoinModel → CoinModel)
    (info : CoinRowInfo) (h : m.numberRows ≤ idx)
    (hf : (f m).rows_ = (m.fillRows idx).rows_.set idx info) :
    m.rowLazyExtends f idx := by
  constructor
  · show (f m).rows_.length = idx + 1
    rw [hf, List.length_set, fillRows_length h]
  · intro k hk1 hk2
    unfold rowDefaultsAt getRowLower getRowUpper getRowName rowInfoAt
    rw [hf, getD_set_of_ne _ _ (by omega)]
    have h2 := fillRows_rowInfoAt_new hk1 (Nat.le_of_lt hk2)
    unfold rowInfoAt at h2
    rw [h2]
    exact ⟨rfl, rfl, rfl⟩

/-- The column-side mirror of `rowLazyExtends_of_rows_eq`. -/
theorem columnLazyExtends_of_columns_eq (m : CoinModel) (idx : Nat)
    (f : CoinModel → CoinModel) (info : CoinColumnInfo) (h : m.numberColumns ≤ idx)
    (hf : (f m).columns_ = (m.fillColumns idx).columns_.set idx info) :
    m.columnLazyExtends f idx := by
  constructor
  · show (f m).columns_.length = idx + 1
    rw [hf, List.length_set, fillColumns_length h]
  · intro k hk1 hk2
    unfold columnDefaultsAt getColumnLower getColumnUpper getColumnObjective
      getColumnName getColumnIsInteger columnInfoAt
    rw [hf, getD_set_of_ne _ _ (by omega)]
    have h2 := fillColumns_columnInfoAt_new hk1 (Nat.le_of_lt hk2)
    unfold columnInfoAt at h2
    rw [h2]
    exact ⟨rfl, rfl, rfl, rfl, rfl⟩

end CoinModel

/-- C2: a setter aimed at an index at or beyond the current count
auto-creates all intervening rows/columns: afterwards the count is
`idx + 1` and every index in `[oldCount, idx)` carries the default
attributes (bounds `(-COIN_DBL_MAX, COIN_DBL_MAX)` and empty name for rows;
the column defaults for columns); this lazy-extension policy is uniform
across every row and column attribute setter. -/
theorem attribute_setters_lazy_extension (m : CoinModel) (idx jdx : Nat) (x y : ℚ)
    (nm : String) (b : Bool) (hr : m.numberRows ≤ idx) (hc : m.numberColumns ≤ jdx) :
    m.rowLazyExtends (fun m2 => m2.setRowLower idx x) idx ∧
    m.rowLazyExtends (fun m2 => m2.setRowUpper idx x) idx ∧
    m.rowLazyExtends (fun m2 => m2.setRowBounds idx x y) idx ∧
    m.rowLazyExtends (fun m2 => m2.setRowName idx nm) idx ∧
    m.columnLazyExtends (fun m2 => m2.setColumnLower jdx x) jdx ∧
    m.columnLazyExtends (fun m2 => m2.setColumnUpper jdx x) jdx ∧
    m.columnLazyExtends (fun m2 => m2.setColumnBounds jdx x y) jdx ∧
    m.columnLazyExtends (fun m2 => m2.setColumnObjective jdx x) jdx ∧
    m.columnLazyExtends (fun m2 => m2.setColumnName jdx nm) jdx ∧
    m.columnLazyExtends (fun m2 => m2.setColumnIsInteger jdx b) jdx :=
  ⟨CoinModel.rowLazyExtends_of_rows_eq m idx _ _ hr rfl,
   CoinModel.rowLazyExtends_of_rows_eq m idx _ _ hr rfl,
   CoinModel.rowLazyExtends_of_rows_eq m idx _ _ hr rfl,
   CoinModel.rowLazyExtends_of_rows_eq m idx _ _ hr rfl,
   CoinModel.columnLazyExtends_of_columns_eq m jdx _ _ hc rfl,
   CoinModel.columnLazyExtends_of_columns_eq m jdx _ _ hc rfl,
   CoinModel.columnLazyExtends_of_columns_eq m jdx _ _ hc rfl,
   CoinModel.columnLazyExtends_of_columns_eq m jdx _ _ hc rfl,
   CoinModel.columnLazyExtends_of_columns_eq m jdx _ _ hc rfl,
   CoinModel.columnLazyExtends_of_columns_eq m jdx _ _ hc rfl⟩

/-- Witness for C2 at the empty model, row index 2, column index 1. -/
theorem attribute_setters_lazy_extension_witness :
    CoinModel.init.numberRows ≤ 2 ∧ CoinModel.init.numberColumns ≤ 1 ∧
    (CoinModel.init.rowLazyExtends (fun m2 => m2.setRowLower 2 5) 2 ∧
     CoinModel.init.rowLazyExtends (fun m2 => m2.setRowUpper 2 5) 2 ∧
     CoinModel.init.rowLazyExtends (fun m2 => m2.setRowBounds 2 5 7) 2 ∧
     CoinModel.init.rowLazyExtends (fun m2 => m2.setRowName 2 "r") 2 ∧
     CoinModel.init.columnLazyExtends (fun m2 => m2.setColumnLower 1 5) 1 ∧
     CoinModel.init.columnLazyExtends (fun m2 => m2.setColumnUpper 1 5) 1 ∧
     CoinModel.init.columnLazyExtends (fun m2 => m2.setColumnBounds 1 5 7) 1 ∧
     CoinModel.init.columnLazyExtends (fun m2 => m2.setColumnObjective 1 5) 1 ∧
     CoinModel.init.columnLazyExtends (fun m2 => m2.setColumnName 1 "r") 1 ∧
     CoinModel.init.columnLazyExtends (fun m2 => m2.setColumnIsInteger 1 true) 1) :=
  ⟨by decide, by decide,
   attribute_setters_lazy_extension CoinModel.init 2 1 5 7 "r" true (by decide) (by decide)⟩

/-- A string absent from the pool has no id. -/
theorem stringId_eq_none {l : List (String × ℚ)} {s : String}
    (h : ∀ p ∈ l, p.1 ≠ s) : stringId l s = none := by
  induction l with
  | nil => rfl
  | cons p rest ih =>
    have hp : p.1 ≠ s := h p (List.mem_cons_self _ _)
    simp [stringId, hp, ih (fun q hq => h q (List.mem_cons_of_mem _ hq))]

/-- Interning a fresh string binds it to the next id. -/
theorem stringId_append_self {l : List (String × ℚ)} {s : String} (v : ℚ)
    (h : ∀ p ∈ l, p.1 ≠ s) : stringId (l ++ [(s, v)]) s = some l.length := by
  induction l with
  | nil => simp [stringId]
  | cons p rest ih =>
    have hp : p.1 ≠ s := h p (List.mem_cons_self _ _)
    simp [stringId, hp, ih (fun q hq => h q (List.mem_cons_of_mem _ hq))]

/-- `getD` at the old length after appending one entry. -/
theorem getD_append_self_length {α : Type} (l : List α) (x d : α) :
    (l ++ [x]).getD l.length d = x := by
  rw [List.getD_append_right _ _ _ _ (Nat.le_refl _)]
  simp [List.getD]

/-- C7: for a string `s` not already in the pool, `associateElement(s, v)`
creates a new string id bound to the numeric value `v` and returns that id
(not −1); after `setElement(r, c, s)` for the associated string,
`getElementAsString(r, c)` returns the original text `s` and
`getElement(r, c)` returns the associated numeric value `v`, never the
text. -/
theorem associateElement_string_roundtrip (m : CoinModel) (s : String) (v : ℚ)
    (r c : Nat) (habs : ∀ p ∈ m.string_, p.1 ≠ s) :
    (m.associateElement s v).2 = (m.string_.length : Int) ∧
    (m.associateElement s v).2 ≠ -1 ∧
    (m.associateElement s v).1.string_ = m.string_ ++ [(s, v)] ∧
    ((m.associateElement s v).1.setElementString r c s).getElementAsString r c = s ∧
    ((m.associateElement s v).1.setElementString r c s).getElement r c = v := by
  have h0 : stringId m.string_ s = none := stringId_eq_none habs
  have ha : m.associateElement s v =
      ({ m with string_ := m.string_ ++ [(s, v)] }, (m.string_.length : Int)) := by
    unfold CoinModel.associateElement
    rw [h0]
  have hsid : stringId ((m.associateElement s v).1).string_ s = some m.string_.length := by
    rw [ha]
    exact stringId_append_self v habs
  have hstr2 : ((m.associateElement s v).1.setElementString r c s).string_ =
      m.string_ ++ [(s, v)] := by
    unfold CoinModel.setElementString
    rw [hsid, CoinModel.setElementValue_string, ha]
  refine ⟨by rw [ha], ?_, by rw [ha], ?_, ?_⟩
  · rw [ha]
    show (m.string_.length : Int) ≠ -1
    omega
  · show ((m.associateElement s v).1.setElementString r c s).getElementAsString r c = s
    unfold CoinModel.setElementString
    rw [hsid]
    unfold CoinModel.getElementAsString
    rw [CoinModel.getTriple_setElementValue]
    simp only [CoinModel.setElementValue_string]
    have : ((m.associateElement s v).1).string_ = m.string_ ++ [(s, v)] := by rw [ha]
    rw [this, getD_append_self_length]
  · show ((m.associateElement s v).1.setElementString r c s).getElement r c = v
    unfold CoinModel.setElementString
    rw [hsid]
    unfold CoinModel.getElement
    rw [CoinModel.getTriple_setElementValue]
    unfold CoinModel.resolveValue
    simp only [CoinModel.setElementValue_string]
    have : ((m.associateElement s v).1).string_ = m.string_ ++ [(s, v)] := by rw [ha]
    rw [this, getD_append_self_length]

/-- Witness for C7 at the empty model with string "p" and value 0. -/
theorem associateElement_string_roundtrip_witness :
    (∀ p ∈ CoinModel.init.string_, p.1 ≠ "p") ∧
    ((CoinModel.init.associateElement "p" 0).2 = (CoinModel.init.string_.length : Int) ∧
     (CoinModel.init.associateElement "p" 0).2 ≠ -1 ∧
     (CoinModel.init.associateElement "p" 0).1.string_ =
       CoinModel.init.string_ ++ [("p", 0)] ∧
     ((CoinModel.init.associateElement "p" 0).1.setElementString 0 0 "p").getElementAsString
       0 0 = "p" ∧
     ((CoinModel.init.associateElement "p" 0).1.setElementString 0 0 "p").getElement
       0 0 = 0) :=
  ⟨by decide,
   associateElement_string_roundtrip CoinModel.init "p" 0 0 0 (by decide)⟩

/-- Deleting a row's elements keeps exactly the live triples of other rows. -/
theorem filterMap_rowDelete (es : List (Option CoinModelTriple)) (r : Nat) :
    (es.map (fun e => match e with
      | some t => if t.row == r then none else some t
      | none => none)).filterMap id
      = (es.filterMap id).filter (fun t => !(t.row == r)) := by
  induction es with
  | nil => rfl
  | cons e rest ih =>
    cases e with
    | none => simpa using ih
    | some t =>
      by_cases h : t.row = r
      · subst h; simp_all
      · simp_all

/-- Deleting a column's elements keeps exactly the live triples of other
columns. -/
theorem filterMap_columnDelete (es : List (Option CoinModelTriple)) (c : Nat) :
    (es.map (fun e => match e with
      | some t => if t.column == c then none else some t
      | none => none)).filterMap id
      = (es.filterMap id).filter (fun t => !(t.column == c)) := by
  induction es with
  | nil => rfl
  | cons e rest ih =>
    cases e with
    | none => simpa using ih
    | some t =>
      by_cases h : t.column = c
      · subst h; simp_all
      · simp_all

/-- No live slot of the row-deleted store belongs to the deleted row. -/
theorem mem_rowDelete {es : List (Option CoinModelTriple)} {r : Nat} {t : CoinModelTriple}
    (h : some t ∈ es.map (fun e => match e with
      | some u => if u.row == r then none else some u
      | none => none)) : (t.row == r) = false := by
  rw [List.mem_map] at h
  obtain ⟨e, he, hfe⟩ := h
  cases e with
  | none => simp at hfe
  | some u =>
    by_cases hu : u.row = r
    · simp [hu] at hfe
    · simp [hu] at hfe
      subst hfe
      simp [hu]

/-- No live slot of the column-deleted store belongs to the deleted column. -/
theorem mem_columnDelete {es : List (Option CoinModelTriple)} {c : Nat}
    {t : CoinModelTriple}
    (h : some t ∈ es.map (fun e => match e with
      | some u => if u.column == c then none else some u
      | none => none)) : (t.column == c) = false := by
  rw [List.mem_map] at h
  obtain ⟨e, he, hfe⟩ := h
  cases e with
  | none => simp at hfe
  | some u =>
    by_cases hu : u.column = c
    · simp [hu] at hfe
    · simp [hu] at hfe
      subst hfe
      simp [hu]

/-- C3: for every existing row `r`, `deleteRow(r)` removes every element
owned by `r` and clears its bounds and name; if `r` is the current last row
the row count is decremented, otherwise the count is unchanged and the slot
becomes a hole with `firstInRow(r)` absent (index −1); the operation
reports success in both cases; `deleteColumn` is the mirror. -/
theorem deleteRow_deleteColumn_spec (m : CoinModel) (r c : Nat)
    (hr : r < m.numberRows) (hc : c < m.numberColumns) :
    ((m.deleteRow r).2 = true ∧
     (m.deleteRow r).1.liveTriples = m.liveTriples.filter (fun t => !(t.row == r)) ∧
     (m.deleteRow r).1.getRowLower r = -COIN_DBL_MAX ∧
     (m.deleteRow r).1.getRowUpper r = COIN_DBL_MAX ∧
     (m.deleteRow r).1.getRowName r = "" ∧
     ((m.deleteRow r).1.firstInRow r).element_ = -1 ∧
     (m.deleteRow r).1.numberRows =
       (if r + 1 = m.numberRows then m.numberRows - 1 else m.numberRows)) ∧
    ((m.deleteColumn c).2 = true ∧
     (m.deleteColumn c).1.liveTriples =
       m.liveTriples.filter (fun t => !(t.column == c)) ∧
     (m.deleteColumn c).1.getColumnLower c = 0 ∧
     (m.deleteColumn c).1.getColumnUpper c = COIN_DBL_MAX ∧
     (m.deleteColumn c).1.getColumnName c = "" ∧
     ((m.deleteColumn c).1.firstInColumn c).element_ = -1 ∧
     (m.deleteColumn c).1.numberColumns =
       (if c + 1 = m.numberColumns then m.numberColumns - 1 else m.numberColumns)) := by
  unfold CoinModel.numberRows at hr
  unfold CoinModel.numberColumns at hc
  constructor
  · have hfirst : ∀ (mm : CoinModel),
        mm.elements_ = m.elements_.map (fun e => match e with
          | some u => if u.row == r then none else some u
          | none => none) → (mm.firstInRow r).element_ = -1 := by
      intro mm hmm
      unfold CoinModel.firstInRow
      rw [findLive_eq_none (fun t ht => by rw [hmm] at ht; exact mem_rowDelete ht)]
      rfl
    by_cases hlast : r + 1 = m.rows_.length
    · unfold CoinModel.deleteRow
      rw [if_pos hlast]
      refine ⟨rfl, ?_, ?_, ?_, ?_, ?_, ?_⟩
      · exact filterMap_rowDelete m.elements_ r
      · unfold CoinModel.getRowLower CoinModel.rowInfoAt
        rw [List.getD_eq_default _ _ (by simp [List.length_take] <;> omega)]
        rfl
      · unfold CoinModel.getRowUpper CoinModel.rowInfoAt
        rw [List.getD_eq_default _ _ (by simp [List.length_take] <;> omega)]
        rfl
      · unfold CoinModel.getRowName CoinModel.rowInfoAt
        rw [List.getD_eq_default _ _ (by simp [List.length_take] <;> omega)]
        rfl
      · exact hfirst _ rfl
      · unfold CoinModel.numberRows
        rw [if_pos hlast]
        simp [List.length_take] <;> omega
    · unfold CoinModel.deleteRow
      rw [if_neg hlast, if_pos hr]
      refine ⟨rfl, ?_, ?_, ?_, ?_, ?_, ?_⟩
      · exact filterMap_rowDelete m.elements_ r
      · unfold CoinModel.getRowLower CoinModel.rowInfoAt
        rw [getD_set_of_eq _ _ hr]
        rfl
      · unfold CoinModel.getRowUpper CoinModel.rowInfoAt
        rw [getD_set_of_eq _ _ hr]
        rfl
      · unfold CoinModel.getRowName CoinModel.rowInfoAt
        rw [getD_set_of_eq _ _ hr]
        rfl
      · exact hfirst _ rfl
      · unfold CoinModel.numberRows
        rw [if_neg hlast]
        simp
  · have hfirst : ∀ (mm : CoinModel),
        mm.elements_ = m.elements_.map (fun e => match e with
          | some u => if u.column == c then none else some u
          | none => none) → (mm.firstInColumn c).element_ = -1 := by
      intro mm hmm
      unfold CoinModel.firstInColumn
      rw [findLive_eq_none (fun t ht => by rw [hmm] at ht; exact mem_columnDelete ht)]
      rfl
    by_cases hlast : c + 1 = m.columns_.length
    · unfold CoinModel.deleteColumn
      rw [if_pos hlast]
      refine ⟨rfl, ?_, ?_, ?_, ?_, ?_, ?_⟩
      · exact filterMap_columnDelete m.elements_ c
      · unfold CoinModel.getColumnLower CoinModel.columnInfoAt
        rw [List.getD_eq_default _ _ (by simp [List.length_take] <;> omega)]
        rfl
      · unfold CoinModel.getColumnUpper CoinModel.columnInfoAt
        rw [List.getD_eq_default _ _ (by simp [List.length_take] <;> omega)]
        rfl
      · unfold CoinModel.getColumnName CoinModel.columnInfoAt
        rw [List.getD_eq_default _ _ (by simp [List.length_take] <;> omega)]
        rfl
      · exact hfirst _ rfl
      · unfold CoinModel.numberColumns
        rw [if_pos hlast]
        simp [List.length_take] <;> omega
    · unfold CoinModel.deleteColumn
      rw [if_neg hlast, if_pos hc]
      refine ⟨rfl, ?_, ?_, ?_, ?_, ?_, ?_⟩
      · exact filterMap_columnDelete m.elements_ c
      · unfold CoinModel.getColumnLower CoinModel.columnInfoAt
        rw [getD_set_of_eq _ _ hc]
        rfl
      · unfold CoinModel.getColumnUpper CoinModel.columnInfoAt
        rw [getD_set_of_eq _ _ hc]
        rfl
      · unfold CoinModel.getColumnName CoinModel.columnInfoAt
        rw [getD_set_of_eq _ _ hc]
        rfl
      · exact hfirst _ rfl
      · unfold CoinModel.numberColumns
        rw [if_neg hlast]
        simp

/-- Witness for C3 on the sample model: row 0 (not last) and column 2
(last). -/
theorem deleteRow_deleteColumn_spec_witness :
    (0 < sampleModel.numberRows ∧ 2 < sampleModel.numberColumns) ∧
    (((sampleModel.deleteRow 0).2 = true ∧
      (sampleModel.deleteRow 0).1.liveTriples =
        sampleModel.liveTriples.filter (fun t => !(t.row == 0)) ∧
      (sampleModel.deleteRow 0).1.getRowLower 0 = -COIN_DBL_MAX ∧
      (sampleModel.deleteRow 0).1.getRowUpper 0 = COIN_DBL_MAX ∧
      (sampleModel.deleteRow 0).1.getRowName 0 = "" ∧
      ((sampleModel.deleteRow 0).1.firstInRow 0).element_ = -1 ∧
      (sampleModel.deleteRow 0).1.numberRows =
        (if 0 + 1 = sampleModel.numberRows then sampleModel.numberRows - 1
         else sampleModel.numberRows)) ∧
     ((sampleModel.deleteColumn 2).2 = true ∧
      (sampleModel.deleteColumn 2).1.liveTriples =
        sampleModel.liveTriples.filter (fun t => !(t.column == 2)) ∧
      (sampleModel.deleteColumn 2).1.getColumnLower 2 = 0 ∧
      (sampleModel.deleteColumn 2).1.getColumnUpper 2 = COIN_DBL_MAX ∧
      (sampleModel.deleteColumn 2).1.getColumnName 2 = "" ∧
      ((sampleModel.deleteColumn 2).1.firstInColumn 2).element_ = -1 ∧
      (sampleModel.deleteColumn 2).1.numberColumns =
        (if 2 + 1 = sampleModel.numberColumns then sampleModel.numberColumns - 1
         else sampleModel.numberColumns))) :=
  ⟨⟨by decide, by decide⟩,
   deleteRow_deleteColumn_spec sampleModel 0 2 (by decide) (by decide)⟩

/-- C10: every inline abbreviated operation of the header is extensionally
equal to its full-named counterpart for all arguments and all model states:
`addCol` = `addColumn`, `setColLower`/`setColUpper`/`setColBounds`/
`setColObjective`/`setColName`/`setColIsInteger` = the `setColumn*`
versions, `getColLower`/`getColUpper`/`getColObjective`/`getColName`/
`getColIsInteger` = the `getColumn*` versions, `deleteCol` = `deleteColumn`,
`packCols` = `packColumns`, and `operator()(i, j, value)` (embedded as
`parenAssign`) = `setElement(i, j, value)`. -/
theorem inline_forwarders_extensional (m : CoinModel) (entries : List (Nat × ℚ))
    (lo up ob v : ℚ) (nm : String) (b : Bool) (i j w : Nat) :
    m.addCol entries lo up ob nm b = m.addColumn entries lo up ob nm b ∧
    m.parenAssign i j v = m.setElement i j v ∧
    m.setColLower w lo = m.setColumnLower w lo ∧
    m.setColUpper w up = m.setColumnUpper w up ∧
    m.setColBounds w lo up = m.setColumnBounds w lo up ∧
    m.setColObjective w ob = m.setColumnObjective w ob ∧
    m.setColName w nm = m.setColumnName w nm ∧
    m.setColIsInteger w b = m.setColumnIsInteger w b ∧
    m.deleteCol w = m.deleteColumn w ∧
    m.packCols = m.packColumns ∧
    m.getColLower w = m.getColumnLower w ∧
    m.getColUpper w = m.getColumnUpper w ∧
    m.getColObjective w = m.getColumnObjective w ∧
    m.getColName w = m.getColumnName w ∧
    m.getColIsInteger w = m.getColumnIsInteger w :=
  ⟨rfl, rfl, rfl, rfl, rfl, rfl, rfl, rfl, rfl, rfl, rfl, rfl, rfl, rfl, rfl⟩

/-- Bulk insertion of fresh (column, value) pairs into row `r` appends their
triples in order at the tail of the element store. -/
theorem foldl_setElementValue_elements (r : Nat) (entries : List (Nat × ℚ)) :
    ∀ (acc : CoinModel),
      (∀ t ∈ acc.liveTriples, t.row = r → t.column ∉ entries.map Prod.fst) →
      (entries.map Prod.fst).Nodup →
      (entries.foldl (fun a p => a.setElementValue r p.1 (CoinValue.num p.2)) acc).elements_
        = acc.elements_ ++ entries.map (fun p => some ⟨r, p.1, CoinValue.num p.2⟩) := by
  induction entries with
  | nil => intro acc _ _; simp
  | cons p rest ih =>
    intro acc hacc hnd
    have hnotin : p.1 ∉ rest.map Prod.fst := (List.nodup_cons.mp hnd).1
    have hnd2 : (rest.map Prod.fst).Nodup := (List.nodup_cons.mp hnd).2
    have hnone : findLive acc.elements_ (matchesRC r p.1) = none := by
      apply findLive_eq_none
      intro t ht
      by_cases hrow : t.row = r
      · have hcol : t.column ∉ (p :: rest).map Prod.fst :=
          hacc t (mem_live_iff.mpr ht) hrow
        have hne : t.column ≠ p.1 := fun hcne => hcol (by simp [hcne])
        simp [matchesRC, hrow, hne]
      · simp [matchesRC, hrow]
    have hel := CoinModel.setElementValue_elements_of_absent acc r p.1
      (CoinValue.num p.2) hnone
    have hinv : ∀ t ∈ (acc.setElementValue r p.1 (CoinValue.num p.2)).liveTriples,
        t.row = r → t.column ∉ rest.map Prod.fst := by
      intro t ht hrow
      have ht2 : t ∈ acc.liveTriples ++ [(⟨r, p.1, CoinValue.num p.2⟩ : CoinModelTriple)] := by
        unfold CoinModel.liveTriples at ht ⊢
        rw [hel] at ht
        simpa using ht
      rcases List.mem_append.mp ht2 with h1 | h2
      · intro hmem
        exact hacc t h1 hrow (by simp [hmem])
      · have ht3 : t = ⟨r, p.1, CoinValue.num p.2⟩ := by simpa using h2
        intro hmem
        rw [ht3] at hmem
        exact hnotin hmem
    rw [List.foldl_cons, ih _ hinv hnd2, hel, List.append_assoc]
    simp

/-- `addRow` appends one triple per (column, value) pair, in order, at the
tail of the element store. -/
theorem addRow_elements (m : CoinModel) (entries : List (Nat × ℚ)) (lo hi : ℚ)
    (nm : String) (hfresh : ∀ t ∈ m.liveTriples, t.row ≠ m.numberRows)
    (hnd : (entries.map Prod.fst).Nodup) :
    (m.addRow entries lo hi nm).elements_ =
      m.elements_ ++ entries.map (fun p => some ⟨m.numberRows, p.1, CoinValue.num p.2⟩) := by
  have h2 : ∀ (m2 : CoinModel), m2.elements_ = m.elements_ →
      (entries.foldl (fun a p => a.setElementValue m.numberRows p.1 (CoinValue.num p.2))
        m2).elements_
        = m.elements_ ++ entries.map
            (fun p => some ⟨m.numberRows, p.1, CoinValue.num p.2⟩) := by
    intro m2 hm2
    have hacc : ∀ t ∈ m2.liveTriples, t.row = m.numberRows →
        t.column ∉ entries.map Prod.fst := by
      intro t ht hrow
      have htm : t ∈ m.liveTriples := by
        unfold CoinModel.liveTriples at ht ⊢
        rw [hm2] at ht
        exact ht
      exact absurd hrow (hfresh t htm)
    rw [foldl_setElementValue_elements _ _ m2 hacc hnd, hm2]
  exact h2 _ (CoinModel.fillRows_elements m m.numberRows)

/-- `next` on a valid row-list cursor at position `pos` scans the slots
after `pos` for the next element of the same row. -/
theorem next_step (m2 : CoinModel) (pos r2 col : Nat) (vv : ℚ) :
    m2.next ⟨(pos : Int), (r2 : Int), (col : Int), true, vv⟩ =
      (match findLive (m2.elements_.drop (pos + 1))
          (fun t => ((t.row : Int) == (r2 : Int))) with
       | some q => ⟨((pos + 1 + q.1 : Nat) : Int), (q.2.row : Int), (q.2.column : Int),
           true, m2.resolveValue q.2.value⟩
       | none => absentLink true) := by
  unfold CoinModel.next
  rw [if_neg (show ¬((pos : Int) < 0) by omega)]
  rfl

/-- Traversing a row whose elements form a contiguous appended block: the
`k`-th step stands on the `k`-th appended triple, and the step one past the
end yields the absent sentinel. -/
theorem rowTraversal_over_append (m' : CoinModel) (r : Nat)
    (front : List (Option CoinModelTriple)) (pairs : List (Nat × ℚ))
    (hel : m'.elements_ = front ++ pairs.map (fun p => some ⟨r, p.1, CoinValue.num p.2⟩))
    (hfront : ∀ t, some t ∈ front → (t.row == r) = false) :
    ∀ k, k ≤ pairs.length →
      m'.rowTraversal r k =
        (if k < pairs.length then
          ⟨((front.length + k : Nat) : Int), (r : Int),
           ((pairs.getD k (0, 0)).1 : Int), true, (pairs.getD k (0, 0)).2⟩
         else absentLink true) := by
  intro k
  induction k with
  | zero =>
    intro h0
    show m'.firstInRow r = _
    unfold CoinModel.firstInRow
    rw [hel, findLive_append_of_none (findLive_eq_none hfront)]
    cases pairs with
    | nil => simp [findLive, absentLink]
    | cons p rest =>
      simp [findLive, CoinModel.resolveValue, List.getD]
  | succ k ihk =>
    intro hk1
    have hklt : k < pairs.length := Nat.lt_of_succ_le hk1
    have hcur := ihk (Nat.le_of_succ_le hk1)
    rw [if_pos hklt] at hcur
    show m'.next (m'.rowTraversal r k) = _
    rw [hcur, next_step]
    have hd : m'.elements_.drop (front.length + k + 1) =
        (pairs.drop (k + 1)).map (fun p => some ⟨r, p.1, CoinValue.num p.2⟩) := by
      rw [hel, show front.length + k + 1 = front.length + (k + 1) from rfl,
        List.drop_append, List.map_drop]
    by_cases hk3 : k + 1 < pairs.length
    · rw [if_pos hk3]
      rw [List.drop_eq_getElem_cons hk3] at hd
      simp only [List.map_cons] at hd
      rw [hd]
      simp [findLive, CoinModel.resolveValue, List.getD, List.getElem?_eq_getElem hk3,
        CoinModelLink.mk.injEq] <;> omega
    · have hk4 : k + 1 = pairs.length := by omega
      rw [if_neg (by omega)]
      have hnil : pairs.drop (k + 1) = [] := by rw [hk4]; simp
      rw [hnil] at hd
      simp only [List.map_nil] at hd
      rw [hd]
      simp [findLive]

/-- A row with no live element rejects the row predicate on every live
slot. -/
theorem rowHasNoElements_spec {m : CoinModel} {i : Nat}
    (h : m.rowHasNoElements i = true) :
    ∀ t, some t ∈ m.elements_ → (t.row == i) = false := by
  intro t ht
  unfold CoinModel.rowHasNoElements at h
  rw [List.all_eq_true] at h
  simpa using h (some t) ht

/-- A column with no live element rejects the column predicate on every
live slot. -/
theorem columnHasNoElements_spec {m : CoinModel} {j : Nat}
    (h : m.columnHasNoElements j = true) :
    ∀ t, some t ∈ m.elements_ → (t.column == j) = false := by
  intro t ht
  unfold CoinModel.columnHasNoElements at h
  rw [List.all_eq_true] at h
  simpa using h (some t) ht

/-- C5: for a row built by `addRow` with `n` (column, value) pairs,
traversing `firstInRow` followed by `next` `n` times enumerates exactly
those pairs in append (insertion) order, and the `n+1`-th step yields the
absent sentinel (index −1); `firstInRow`/`lastInRow`/`firstInColumn`/
`lastInColumn` return the absent sentinel whenever the row/column has no
elements. -/
theorem addRow_traversal_spec (m : CoinModel) (entries : List (Nat × ℚ)) (lo hi : ℚ)
    (nm : String)
    (hfresh : ∀ t ∈ m.liveTriples, t.row ≠ m.numberRows)
    (hnd : (entries.map Prod.fst).Nodup) :
    (∀ k, k < entries.length →
      (m.addRow entries lo hi nm).rowTraversal m.numberRows k =
        ⟨((m.numberElements + k : Nat) : Int), (m.numberRows : Int),
         ((entries.getD k (0, 0)).1 : Int), true, (entries.getD k (0, 0)).2⟩) ∧
    (m.addRow entries lo hi nm).rowTraversal m.numberRows entries.length =
      absentLink true ∧
    (∀ i, m.rowHasNoElements i = true →
      (m.firstInRow i).element_ = -1 ∧ (m.lastInRow i).element_ = -1) ∧
    (∀ j, m.columnHasNoElements j = true →
      (m.firstInColumn j).element_ = -1 ∧ (m.lastInColumn j).element_ = -1) := by
  have hfront : ∀ t, some t ∈ m.elements_ → (t.row == m.numberRows) = false := by
    intro t ht
    simpa using hfresh t (mem_live_iff.mpr ht)
  have hel := addRow_elements m entries lo hi nm hfresh hnd
  have htrav := rowTraversal_over_append (m.addRow entries lo hi nm) m.numberRows
    m.elements_ entries hel hfront
  refine ⟨?_, ?_, ?_, ?_⟩
  · intro k hk
    rw [htrav k (Nat.le_of_lt hk), if_pos hk]
    rfl
  · rw [htrav entries.length (Nat.le_refl _), if_neg (lt_irrefl _)]
  · intro i hi
    constructor
    · unfold CoinModel.firstInRow
      rw [findLive_eq_none (rowHasNoElements_spec hi)]
      rfl
    · unfold CoinModel.lastInRow
      rw [findLiveLast_eq_none (rowHasNoElements_spec hi)]
      rfl
  · intro j hj
    constructor
    · unfold CoinModel.firstInColumn
      rw [findLive_eq_none (columnHasNoElements_spec hj)]
      rfl
    · unfold CoinModel.lastInColumn
      rw [findLiveLast_eq_none (columnHasNoElements_spec hj)]
      rfl

/-- Witness for C5 at the empty model with two entries. -/
theorem addRow_traversal_spec_witness :
    (∀ t ∈ CoinModel.init.liveTriples, t.row ≠ CoinModel.init.numberRows) ∧
    (([(0, 1), (2, 3)] : List (Nat × ℚ)).map Prod.fst).Nodup ∧
    ((∀ k, k < ([(0, 1), (2, 3)] : List (Nat × ℚ)).length →
      (CoinModel.init.addRow [(0, 1), (2, 3)] 0 10 "r0").rowTraversal
          CoinModel.init.numberRows k =
        ⟨((CoinModel.init.numberElements + k : Nat) : Int),
         (CoinModel.init.numberRows : Int),
         ((([(0, 1), (2, 3)] : List (Nat × ℚ)).getD k (0, 0)).1 : Int), true,
         (([(0, 1), (2, 3)] : List (Nat × ℚ)).getD k (0, 0)).2⟩) ∧
    (CoinModel.init.addRow [(0, 1), (2, 3)] 0 10 "r0").rowTraversal
        CoinModel.init.numberRows ([(0, 1), (2, 3)] : List (Nat × ℚ)).length =
      absentLink true ∧
    (∀ i, CoinModel.init.rowHasNoElements i = true →
      (CoinModel.init.firstInRow i).element_ = -1 ∧
      (CoinModel.init.lastInRow i).element_ = -1) ∧
    (∀ j, CoinModel.init.columnHasNoElements j = true →
      (CoinModel.init.firstInColumn j).element_ = -1 ∧
      (CoinModel.init.lastInColumn j).element_ = -1)) :=
  ⟨by decide, by decide,
   addRow_traversal_spec CoinModel.init [(0, 1), (2, 3)] 0 10 "r0" (by decide) (by decide)⟩

/-- `filterMap` of a total `some`-valued function is a `map`. -/
theorem filterMap_some_map {α β : Type} (l : List α) (f : α → β) :
    List.filterMap (fun a => some (f a)) l = l.map f := by
  induction l with
  | nil => rfl
  | cons a rest ih => simp [List.filterMap_cons, ih]

/-- Counting filter hits over a shorter range never counts more. -/
theorem length_filter_range_le (p : Nat → Bool) {i n : Nat} (h : i ≤ n) :
    ((List.range i).filter p).length ≤ ((List.range n).filter p).length := by
  have hn : n = i + (n - i) := by omega
  rw [hn, List.range_add, List.filter_append, List.length_append]
  exact Nat.le_add_right _ _

/-- Counting filter hits strictly grows past a hit. -/
theorem length_filter_range_lt (p : Nat → Bool) {i n : Nat} (h : i < n)
    (hp : p i = true) :
    ((List.range i).filter p).length < ((List.range n).filter p).length := by
  have h1 : ((List.range (i + 1)).filter p).length =
      ((List.range i).filter p).length + 1 := by
    rw [List.range_succ, List.filter_append]
    simp [hp]
  have h2 := length_filter_range_le p (show i + 1 ≤ n from h)
  omega

/-- The element of the filtered range standing at the hit count of `i` is
`i` itself. -/
theorem getD_filter_range (p : Nat → Bool) {i n : Nat} (h : i < n) (hp : p i = true) :
    ((List.range n).filter p).getD (((List.range i).filter p).length) 0 = i := by
  induction n with
  | zero => omega
  | succ n ihn =>
    rw [List.range_succ, List.filter_append]
    by_cases hin : i < n
    · rw [List.getD_append _ _ _ _ (length_filter_range_lt p hin hp)]
      exact ihn hin
    · have hieq : i = n := by omega
      subst hieq
      rw [List.getD_append_right _ _ _ _ (Nat.le_refl _)]
      simp [hp, List.getD]

/-- `getD` through a `map`, inside range. -/
theorem getD_map_of_lt {α β : Type} (l : List α) (f : α → β) (d1 : α) (d2 : β) {n : Nat}
    (h : n < l.length) : (l.map f).getD n d2 = f (l.getD n d1) := by
  rw [List.getD_eq_getElem _ _ (by simpa using h), List.getElem_map,
    List.getD_eq_getElem _ _ h]

/-- A live element's owning row is never a hole row. -/
theorem rowIsHole_false_of_mem {m : CoinModel} {t : CoinModelTriple}
    (ht : t ∈ m.liveTriples) : m.rowIsHole t.row = false := by
  have hall : m.rowHasNoElements t.row = false := by
    cases h2 : m.rowHasNoElements t.row
    · rfl
    · have := rowHasNoElements_spec h2 t (mem_live_iff.mp ht)
      simp at this
  unfold CoinModel.rowIsHole
  rw [hall]
  rfl

/-- A live element's owning column is never a hole column. -/
theorem columnIsHole_false_of_mem {m : CoinModel} {t : CoinModelTriple}
    (ht : t ∈ m.liveTriples) : m.columnIsHole t.column = false := by
  have hall : m.columnHasNoElements t.column = false := by
    cases h2 : m.columnHasNoElements t.column
    · rfl
    · have := columnHasNoElements_spec h2 t (mem_live_iff.mp ht)
      simp at this
  unfold CoinModel.columnIsHole
  rw [hall]
  rfl

/-- With pairwise distinct coordinates, `find?` at a member's coordinate
returns that member. -/
theorem find?_matches_of_nodup {l : List CoinModelTriple}
    (hnd : (l.map CoinModel.coordsOf).Nodup) {t : CoinModelTriple} (ht : t ∈ l) :
    l.find? (matchesRC t.row t.column) = some t := by
  induction l with
  | nil => cases ht
  | cons u rest ih =>
    rw [List.map_cons, List.nodup_cons] at hnd
    by_cases hu : matchesRC t.row t.column u = true
    · rw [List.find?_cons_of_pos _ hu]
      rcases List.mem_cons.mp ht with rfl | htrest
      · rfl
      · exfalso
        have hco : CoinModel.coordsOf u = CoinModel.coordsOf t := by
          unfold matchesRC at hu
          simp only [Bool.and_eq_true, beq_iff_eq] at hu
          unfold CoinModel.coordsOf
          rw [hu.1, hu.2]
        exact hnd.1 (by rw [hco]; exact List.mem_map_of_mem _ htrest)
    · rw [List.find?_cons_of_neg _ hu]
      rcases List.mem_cons.mp ht with rfl | htrest
      · exact absurd (by simp [matchesRC]) hu
      · exact ih hnd.2 htrest

/-- With distinct coordinates, looking up a live element's own coordinate
resolves to that element's value. -/
theorem getElement_of_mem {m : CoinModel} (hg : m.goodCoords) {t : CoinModelTriple}
    (ht : t ∈ m.liveTriples) :
    m.getElement t.row t.column = m.resolveValue t.value := by
  unfold CoinModel.getElement CoinModel.getTriple
  rw [findLive_map_snd]
  have hfind : (m.liveTriples).find? (matchesRC t.row t.column) = some t :=
    find?_matches_of_nodup hg ht
  unfold CoinModel.liveTriples at hfind
  rw [hfind]

namespace CoinModel

/-- `packRows` reports exactly the number of hole rows. -/
theorem packRows_snd (m : CoinModel) :
    (m.packRows).2 = ((List.range m.numberRows).filter (fun i => m.rowIsHole i)).length := by
  unfold packRows
  have hpart : (List.range m.rows_.length).length =
      ((List.range m.rows_.length).filter (fun i => m.rowIsHole i)).length +
        ((List.range m.rows_.length).filter (fun i => !(m.rowIsHole i))).length :=
    List.length_eq_length_filter_add _
  rw [List.length_range] at hpart
  simp only [numberRows]
  omega

/-- `packRows` keeps exactly the non-hole rows. -/
theorem packRows_numberRows (m : CoinModel) :
    (m.packRows).1.numberRows = m.numberRows - (m.packRows).2 := by
  unfold packRows numberRows
  simp only [List.length_map]
  have h1 : ((List.range m.rows_.length).filter (fun i => !(m.rowIsHole i))).length ≤
      m.rows_.length := by
    calc ((List.range m.rows_.length).filter (fun i => !(m.rowIsHole i))).length
        ≤ (List.range m.rows_.length).length := List.length_filter_le _ _
      _ = m.rows_.length := List.length_range _
  omega

/-- `packRows` leaves the column table unchanged. -/
theorem packRows_columns (m : CoinModel) : (m.packRows).1.columns_ = m.columns_ := rfl

/-- `packRows` preserves the attributes of every surviving row at its new
index. -/
theorem packRows_rowInfoAt (m : CoinModel) {i : Nat} (hi : i < m.numberRows)
    (hh : m.rowIsHole i = false) :
    (m.packRows).1.rowInfoAt (m.rowRenum i) = m.rowInfoAt i := by
  have hp : (!(m.rowIsHole i)) = true := by simp [hh]
  have hlt := length_filter_range_lt (fun j => !(m.rowIsHole j)) hi hp
  have hget := getD_filter_range (fun j => !(m.rowIsHole j)) hi hp
  show (((List.range m.numberRows).filter (fun j => !(m.rowIsHole j))).map
      (fun j => m.rowInfoAt j)).getD
      (((List.range i).filter (fun j => !(m.rowIsHole j))).length) defaultRowInfo
      = m.rowInfoAt i
  rw [getD_map_of_lt _ _ 0 _ hlt, hget]

/-- `packRows` renumbers every live element's row index and reclaims the
element holes. -/
theorem packRows_liveTriples (m : CoinModel) :
    (m.packRows).1.liveTriples =
      m.liveTriples.map (fun t => { t with row := m.rowRenum t.row }) := by
  show ((m.liveTriples).map
      (fun t => some ({ t with row := m.rowRenum t.row } : CoinModelTriple))).filterMap id
      = _
  rw [List.filterMap_map]
  exact filterMap_some_map _ _

/-- `packRows` keeps the coordinates pairwise distinct. -/
theorem packRows_goodCoords (m : CoinModel) (hg : m.goodCoords) :
    (m.packRows).1.goodCoords := by
  show ((m.packRows).1.liveTriples.map coordsOf).Nodup
  rw [packRows_liveTriples, List.map_map]
  have hl : m.liveTriples.Nodup := List.Nodup.of_map _ hg
  apply List.Nodup.map_on ?_ hl
  intro x hx y hy hxy
  have hx1 : m.rowIsHole x.row = false := rowIsHole_false_of_mem hx
  have hy1 : m.rowIsHole y.row = false := rowIsHole_false_of_mem hy
  simp only [Function.comp, coordsOf, Prod.mk.injEq] at hxy
  have hrow : x.row = y.row := by
    rcases Nat.lt_trichotomy x.row y.row with hlt | heq | hgt
    · exfalso
      have := length_filter_range_lt (fun j => !(m.rowIsHole j)) hlt (by simp [hx1])
      unfold rowRenum at hxy
      omega
    · exact heq
    · exfalso
      have := length_filter_range_lt (fun j => !(m.rowIsHole j)) hgt (by simp [hy1])
      unfold rowRenum at hxy
      omega
  have hco : coordsOf x = coordsOf y := by
    unfold coordsOf
    rw [hrow, hxy.2]
  exact List.inj_on_of_nodup_map hg hx hy hco

end CoinModel

namespace CoinModel

/-- `packColumns` reports exactly the number of hole columns. -/
theorem packColumns_snd (m : CoinModel) :
    (m.packColumns).2 =
      ((List.range m.numberColumns).filter (fun j => m.columnIsHole j)).length := by
  unfold packColumns
  have hpart : (List.range m.columns_.length).length =
      ((List.range m.columns_.length).filter (fun j => m.columnIsHole j)).length +
        ((List.range m.columns_.length).filter (fun j => !(m.columnIsHole j))).length :=
    List.length_eq_length_filter_add _
  rw [List.length_range] at hpart
  simp only [numberColumns]
  omega

/-- `packColumns` keeps exactly the non-hole columns. -/
theorem packColumns_numberColumns (m : CoinModel) :
    (m.packColumns).1.numberColumns = m.numberColumns - (m.packColumns).2 := by
  unfold packColumns numberColumns
  simp only [List.length_map]
  have h1 : ((List.range m.columns_.length).filter (fun j => !(m.columnIsHole j))).length ≤
      m.columns_.length := by
    calc ((List.range m.columns_.length).filter (fun j => !(m.columnIsHole j))).length
        ≤ (List.range m.columns_.length).length := List.length_filter_le _ _
      _ = m.columns_.length := List.length_range _
  omega

/-- `packColumns` leaves the row table unchanged. -/
theorem packColumns_rows (m : CoinModel) : (m.packColumns).1.rows_ = m.rows_ := rfl

/-- `packColumns` preserves the attributes of every surviving column at its
new index. -/
theorem packColumns_columnInfoAt (m : CoinModel) {j : Nat} (hj : j < m.numberColumns)
    (hh : m.columnIsHole j = false) :
    (m.packColumns).1.columnInfoAt (m.columnRenum j) = m.columnInfoAt j := by
  have hp : (!(m.columnIsHole j)) = true := by simp [hh]
  have hlt := length_filter_range_lt (fun i => !(m.columnIsHole i)) hj hp
  have hget := getD_filter_range (fun i => !(m.columnIsHole i)) hj hp
  show (((List.range m.numberColumns).filter (fun i => !(m.columnIsHole i))).map
      (fun i => m.columnInfoAt i)).getD
      (((List.range j).filter (fun i => !(m.columnIsHole i))).length) defaultColumnInfo
      = m.columnInfoAt j
  rw [getD_map_of_lt _ _ 0 _ hlt, hget]

/-- `packColumns` renumbers every live element's column index and reclaims
the element holes. -/
theorem packColumns_liveTriples (m : CoinModel) :
    (m.packColumns).1.liveTriples =
      m.liveTriples.map (fun t => { t with column := m.columnRenum t.column }) := by
  show ((m.liveTriples).map
      (fun t => some ({ t with column := m.columnRenum t.column } : CoinModelTriple))).filterMap
      id = _
  rw [List.filterMap_map]
  exact filterMap_some_map _ _

/-- `packColumns` keeps the coordinates pairwise distinct. -/
theorem packColumns_goodCoords (m : CoinModel) (hg : m.goodCoords) :
    (m.packColumns).1.goodCoords := by
  show ((m.packColumns).1.liveTriples.map coordsOf).Nodup
  rw [packColumns_liveTriples, List.map_map]
  have hl : m.liveTriples.Nodup := List.Nodup.of_map _ hg
  apply List.Nodup.map_on ?_ hl
  intro x hx y hy hxy
  have hx1 : m.columnIsHole x.column = false := columnIsHole_false_of_mem hx
  have hy1 : m.columnIsHole y.column = false := columnIsHole_false_of_mem hy
  simp only [Function.comp, coordsOf, Prod.mk.injEq] at hxy
  have hcol : x.column = y.column := by
    rcases Nat.lt_trichotomy x.column y.column with hlt | heq | hgt
    · exfalso
      have := length_filter_range_lt (fun i => !(m.columnIsHole i)) hlt (by simp [hx1])
      unfold columnRenum at hxy
      omega
    · exact heq
    · exfalso
      have := length_filter_range_lt (fun i => !(m.columnIsHole i)) hgt (by simp [hy1])
      unfold columnRenum at hxy
      omega
  have hco : coordsOf x = coordsOf y := by
    unfold coordsOf
    rw [hcol, hxy.1]
  exact List.inj_on_of_nodup_map hg hx hy hco

end CoinModel

/-- Characterization of an element-free column by the live triples. -/
theorem columnHasNoElements_iff {m : CoinModel} {j : Nat} :
    m.columnHasNoElements j = true ↔ ∀ t ∈ m.liveTriples, t.column ≠ j := by
  constructor
  · intro h t ht
    simpa using columnHasNoElements_spec h t (mem_live_iff.mp ht)
  · intro h
    unfold CoinModel.columnHasNoElements
    rw [List.all_eq_true]
    intro e he
    cases e with
    | none => rfl
    | some t => simpa using h t (mem_live_iff.mpr he)

/-- `packRows` neither creates nor removes hole columns. -/
theorem packRows_columnIsHole (m : CoinModel) (j : Nat) :
    (m.packRows).1.columnIsHole j = m.columnIsHole j := by
  have h1 : (m.packRows).1.columnHasNoElements j = m.columnHasNoElements j := by
    apply Bool.coe_iff_coe.mp
    rw [columnHasNoElements_iff, columnHasNoElements_iff, CoinModel.packRows_liveTriples]
    constructor
    · intro h t ht
      simpa using h _ (List.mem_map_of_mem _ ht)
    · intro h t ht
      obtain ⟨u, hu, rfl⟩ := List.mem_map.mp ht
      simpa using h u hu
  unfold CoinModel.columnIsHole
  rw [h1]
  rfl

/-- C4: `packRows`, `packColumns` and `pack` remove exactly the hole
rows/columns (no elements and default bounds), return the number removed,
reduce the row/column count by exactly the number of holes, renumber every
surviving row/column attribute row and every element's coordinates, and
leave every surviving element's coordinates consistent with `getElement`
lookup. -/
theorem pack_removes_holes_spec (m : CoinModel) (hg : m.goodCoords) :
    ((m.packRows).2 =
       ((List.range m.numberRows).filter (fun i => m.rowIsHole i)).length ∧
     (m.packRows).1.numberRows = m.numberRows - (m.packRows).2 ∧
     (m.packRows).1.numberColumns = m.numberColumns ∧
     (∀ i, i < m.numberRows → m.rowIsHole i = false →
        (m.packRows).1.rowInfoAt (m.rowRenum i) = m.rowInfoAt i) ∧
     (m.packRows).1.liveTriples =
       m.liveTriples.map (fun t => { t with row := m.rowRenum t.row }) ∧
     (∀ t ∈ (m.packRows).1.liveTriples,
        (m.packRows).1.getElement t.row t.column =
          (m.packRows).1.resolveValue t.value)) ∧
    ((m.packColumns).2 =
       ((List.range m.numberColumns).filter (fun j => m.columnIsHole j)).length ∧
     (m.packColumns).1.numberColumns = m.numberColumns - (m.packColumns).2 ∧
     (m.packColumns).1.numberRows = m.numberRows ∧
     (∀ j, j < m.numberColumns → m.columnIsHole j = false →
        (m.packColumns).1.columnInfoAt (m.columnRenum j) = m.columnInfoAt j) ∧
     (m.packColumns).1.liveTriples =
       m.liveTriples.map (fun t => { t with column := m.columnRenum t.column }) ∧
     (∀ t ∈ (m.packColumns).1.liveTriples,
        (m.packColumns).1.getElement t.row t.column =
          (m.packColumns).1.resolveValue t.value)) ∧
    ((m.pack).2 = (m.packRows).2 + ((m.packRows).1.packColumns).2 ∧
     ((m.packRows).1.packColumns).2 =
       ((List.range m.numberColumns).filter (fun j => m.columnIsHole j)).length ∧
     (m.pack).1.numberRows =
       m.numberRows - ((List.range m.numberRows).filter (fun i => m.rowIsHole i)).length ∧
     (m.pack).1.numberColumns =
       m.numberColumns -
         ((List.range m.numberColumns).filter (fun j => m.columnIsHole j)).length ∧
     (∀ t ∈ (m.pack).1.liveTriples,
        (m.pack).1.getElement t.row t.column = (m.pack).1.resolveValue t.value)) := by
  have hcolsnd : ((m.packRows).1.packColumns).2 =
      ((List.range m.numberColumns).filter (fun j => m.columnIsHole j)).length := by
    rw [CoinModel.packColumns_snd]
    show ((List.range m.numberColumns).filter
        (fun j => (m.packRows).1.columnIsHole j)).length = _
    congr 1
    apply List.filter_congr
    intro j _
    rw [packRows_columnIsHole]
  refine ⟨⟨CoinModel.packRows_snd m, CoinModel.packRows_numberRows m, rfl,
      fun i hi hh => CoinModel.packRows_rowInfoAt m hi hh,
      CoinModel.packRows_liveTriples m,
      fun t ht => getElement_of_mem (CoinModel.packRows_goodCoords m hg) ht⟩,
    ⟨CoinModel.packColumns_snd m, CoinModel.packColumns_numberColumns m, rfl,
      fun j hj hh => CoinModel.packColumns_columnInfoAt m hj hh,
      CoinModel.packColumns_liveTriples m,
      fun t ht => getElement_of_mem (CoinModel.packColumns_goodCoords m hg) ht⟩,
    rfl, hcolsnd, ?_, ?_, ?_⟩
  · show ((m.packRows).1.packColumns).1.numberRows = _
    have h1 : ((m.packRows).1.packColumns).1.numberRows = (m.packRows).1.numberRows := rfl
    rw [h1, CoinModel.packRows_numberRows, CoinModel.packRows_snd]
  · show ((m.packRows).1.packColumns).1.numberColumns = _
    rw [CoinModel.packColumns_numberColumns]
    have h2 : (m.packRows).1.numberColumns = m.numberColumns := rfl
    rw [h2, hcolsnd]
  · intro t ht
    exact getElement_of_mem
      (CoinModel.packColumns_goodCoords _ (CoinModel.packRows_goodCoords m hg)) ht

/-- Witness for C4 on the sample model with a hole row and two hole
columns. -/
theorem pack_removes_holes_spec_witness :
    packSampleModel.goodCoords ∧
    (((packSampleModel.packRows).2 =
        ((List.range packSampleModel.numberRows).filter
          (fun i => packSampleModel.rowIsHole i)).length ∧
      (packSampleModel.packRows).1.numberRows =
        packSampleModel.numberRows - (packSampleModel.packRows).2 ∧
      (packSampleModel.packRows).1.numberColumns = packSampleModel.numberColumns ∧
      (∀ i, i < packSampleModel.numberRows → packSampleModel.rowIsHole i = false →
         (packSampleModel.packRows).1.rowInfoAt (packSampleModel.rowRenum i) =
           packSampleModel.rowInfoAt i) ∧
      (packSampleModel.packRows).1.liveTriples =
        packSampleModel.liveTriples.map
          (fun t => { t with row := packSampleModel.rowRenum t.row }) ∧
      (∀ t ∈ (packSampleModel.packRows).1.liveTriples,
         (packSampleModel.packRows).1.getElement t.row t.column =
           (packSampleModel.packRows).1.resolveValue t.value)) ∧
     ((packSampleModel.packColumns).2 =
        ((List.range packSampleModel.numberColumns).filter
          (fun j => packSampleModel.columnIsHole j)).length ∧
      (packSampleModel.packColumns).1.numberColumns =
        packSampleModel.numberColumns - (packSampleModel.packColumns).2 ∧
      (packSampleModel.packColumns).1.numberRows = packSampleModel.numberRows ∧
      (∀ j, j < packSampleModel.numberColumns →
         packSampleModel.columnIsHole j = false →
         (packSampleModel.packColumns).1.columnInfoAt
             (packSampleModel.columnRenum j) =
           packSampleModel.columnInfoAt j) ∧
      (packSampleModel.packColumns).1.liveTriples =
        packSampleModel.liveTriples.map
          (fun t => { t with column := packSampleModel.columnRenum t.column }) ∧
      (∀ t ∈ (packSampleModel.packColumns).1.liveTriples,
         (packSampleModel.packColumns).1.getElement t.row t.column =
           (packSampleModel.packColumns).1.resolveValue t.value)) ∧
     ((packSampleModel.pack).2 =
        (packSampleModel.packRows).2 +
          ((packSampleModel.packRows).1.packColumns).2 ∧
      ((packSampleModel.packRows).1.packColumns).2 =
        ((List.range packSampleModel.numberColumns).filter
          (fun j => packSampleModel.columnIsHole j)).length ∧
      (packSampleModel.pack).1.numberRows =
        packSampleModel.numberRows -
          ((List.range packSampleModel.numberRows).filter
            (fun i => packSampleModel.rowIsHole i)).length ∧
      (packSampleModel.pack).1.numberColumns =
        packSampleModel.numberColumns -
          ((List.range packSampleModel.numberColumns).filter
            (fun j => packSampleModel.columnIsHole j)).length ∧
      (∀ t ∈ (packSampleModel.pack).1.liveTriples,
         (packSampleModel.pack).1.getElement t.row t.column =
           (packSampleModel.pack).1.resolveValue t.value))) :=
  ⟨by decide, pack_removes_holes_spec packSampleModel (by decide)⟩

namespace CoinModel

/-- The grow policy never shrinks the capacity. -/
theorem growCapacity_ge_cur (cur needed : Nat) : cur ≤ growCapacity cur needed := by
  unfold growCapacity
  split
  · exact Nat.le_refl _
  · calc cur ≤ 2 * cur := by omega
      _ ≤ max (2 * cur) needed := Nat.le_max_left _ _

/-- The grow policy always satisfies the requested size. -/
theorem growCapacity_ge_needed (cur needed : Nat) : needed ≤ growCapacity cur needed := by
  unfold growCapacity
  split
  · omega
  · exact Nat.le_max_right _ _

/-- `capsLE` is reflexive. -/
theorem capsLE_refl (m : CoinModel) : m.capsLE m :=
  ⟨Nat.le_refl _, Nat.le_refl _, Nat.le_refl _, Nat.le_refl _⟩

/-- `capsLE` is transitive. -/
theorem capsLE_trans {m m2 m3 : CoinModel} (h1 : m.capsLE m2) (h2 : m2.capsLE m3) :
    m.capsLE m3 :=
  ⟨Nat.le_trans h1.1 h2.1, Nat.le_trans h1.2.1 h2.2.1, Nat.le_trans h1.2.2.1 h2.2.2.1,
   Nat.le_trans h1.2.2.2 h2.2.2.2⟩

/-- Lazy row creation preserves the count-capacity invariant. -/
theorem good_fillRows {m : CoinModel} (i : Nat) (h : m.Good) : (m.fillRows i).Good := by
  unfold fillRows
  by_cases hlt : i < m.rows_.length
  · rw [if_pos hlt]
    exact h
  · rw [if_neg hlt]
    obtain ⟨h1, h2, h3, h4⟩ := h
    refine ⟨?_, h2, h3, h4⟩
    show (m.rows_ ++ List.replicate (i + 1 - m.rows_.length) defaultRowInfo).length ≤
        growCapacity m.maximumRows_ (i + 1)
    rw [List.length_append, List.length_replicate]
    have := growCapacity_ge_needed m.maximumRows_ (i + 1)
    omega

/-- Lazy column creation preserves the count-capacity invariant. -/
theorem good_fillColumns {m : CoinModel} (i : Nat) (h : m.Good) : (m.fillColumns i).Good := by
  unfold fillColumns
  by_cases hlt : i < m.columns_.length
  · rw [if_pos hlt]
    exact h
  · rw [if_neg hlt]
    obtain ⟨h1, h2, h3, h4⟩ := h
    refine ⟨h1, ?_, h3, h4⟩
    show (m.columns_ ++ List.replicate (i + 1 - m.columns_.length) defaultColumnInfo).length ≤
        growCapacity m.maximumColumns_ (i + 1)
    rw [List.length_append, List.length_replicate]
    have := growCapacity_ge_needed m.maximumColumns_ (i + 1)
    omega

/-- A point update of the row table preserves the invariant. -/
theorem good_rows_set {m : CoinModel} (h : m.Good) (i : Nat) (info : CoinRowInfo) :
    ({ m with rows_ := m.rows_.set i info } : CoinModel).Good := by
  obtain ⟨h1, h2, h3, h4⟩ := h
  refine ⟨?_, h2, h3, h4⟩
  show (m.rows_.set i info).length ≤ m.maximumRows_
  rw [List.length_set]
  exact h1

/-- A point update of the column table preserves the invariant. -/
theorem good_columns_set {m : CoinModel} (h : m.Good) (i : Nat) (info : CoinColumnInfo) :
    ({ m with columns_ := m.columns_.set i info } : CoinModel).Good := by
  obtain ⟨h1, h2, h3, h4⟩ := h
  refine ⟨h1, ?_, h3, h4⟩
  show (m.columns_.set i info).length ≤ m.maximumColumns_
  rw [List.length_set]
  exact h2

/-- The element upsert preserves the invariant. -/
theorem good_setElementValue {m : CoinModel} (i j : Nat) (v : CoinValue) (h : m.Good) :
    (m.setElementValue i j v).Good := by
  unfold setElementValue
  cases hs : setInList m.elements_ i j v with
  | some es =>
    obtain ⟨h1, h2, h3, h4⟩ := h
    refine ⟨h1, h2, ?_, h4⟩
    show es.length ≤ m.maximumElements_
    rw [setInList_length hs]
    exact h3
  | none =>
    obtain ⟨h1, h2, h3, h4⟩ := good_fillColumns j (good_fillRows i h)
    refine ⟨h1, h2, ?_, h4⟩
    show (((m.fillRows i).fillColumns j).elements_ ++ [some (⟨i, j, v⟩ : CoinModelTriple)]).length ≤
        growCapacity ((m.fillRows i).fillColumns j).maximumElements_
          (((m.fillRows i).fillColumns j).elements_.length + 1)
    rw [List.length_append]
    simpa using growCapacity_ge_needed _ _

/-- The quadratic upsert preserves the invariant. -/
theorem good_setQuadraticElement {m : CoinModel} (i j : Nat) (v : ℚ) (h : m.Good) :
    (m.setQuadraticElement i j v).Good := by
  unfold setQuadraticElement
  cases hs : setInList m.quadraticElements_ i j (CoinValue.num v) with
  | some es =>
    obtain ⟨h1, h2, h3, h4⟩ := h
    refine ⟨h1, h2, h3, ?_⟩
    show es.length ≤ m.maximumQuadraticElements_
    rw [setInList_length hs]
    exact h4
  | none =>
    obtain ⟨h1, h2, h3, h4⟩ := good_fillColumns j (good_fillColumns i h)
    refine ⟨h1, h2, h3, ?_⟩
    show (((m.fillColumns i).fillColumns j).quadraticElements_ ++
          [some (⟨i, j, CoinValue.num v⟩ : CoinModelTriple)]).length ≤
        growCapacity ((m.fillColumns i).fillColumns j).maximumQuadraticElements_
          (((m.fillColumns i).fillColumns j).quadraticElements_.length + 1)
    rw [List.length_append]
    simpa using growCapacity_ge_needed _ _

/-- A good-state-preserving fold preserves the invariant. -/
theorem good_foldl {f : CoinModel → (Nat × ℚ) → CoinModel}
    (hf : ∀ a p, a.Good → (f a p).Good) (entries : List (Nat × ℚ)) :
    ∀ acc : CoinModel, acc.Good → (entries.foldl f acc).Good := by
  induction entries with
  | nil => intro acc h; exact h
  | cons p rest ih => intro acc h; exact ih _ (hf acc p h)

/-- `addRow` preserves the invariant. -/
theorem good_addRow {m : CoinModel} (entries : List (Nat × ℚ)) (lo hi : ℚ) (nm : String)
    (h : m.Good) : (m.addRow entries lo hi nm).Good := by
  unfold addRow
  exact good_foldl (fun a p ha => good_setElementValue _ _ _ ha) entries _
    (good_rows_set (good_fillRows _ h) _ _)

/-- `addColumn` preserves the invariant. -/
theorem good_addColumn {m : CoinModel} (entries : List (Nat × ℚ)) (lo hi ob : ℚ)
    (nm : String) (b : Bool) (h : m.Good) :
    (m.addColumn entries lo hi ob nm b).Good := by
  unfold addColumn
  exact good_foldl (fun a p ha => good_setElementValue _ _ _ ha) entries _
    (good_columns_set (good_fillColumns _ h) _ _)

/-- `deleteRow` preserves the invariant. -/
theorem good_deleteRow {m : CoinModel} (i : Nat) (h : m.Good) : (m.deleteRow i).1.Good := by
  obtain ⟨h1, h2, h3, h4⟩ := h
  unfold deleteRow
  by_cases hb1 : i + 1 = m.rows_.length
  · rw [if_pos hb1]
    refine ⟨?_, h2, ?_, h4⟩
    · show (m.rows_.take i).length ≤ m.maximumRows_
      rw [List.length_take]
      have h1b : m.rows_.length ≤ m.maximumRows_ := h1
      omega
    · show (m.elements_.map _).length ≤ m.maximumElements_
      rw [List.length_map]
      exact h3
  · rw [if_neg hb1]
    by_cases hb2 : i < m.rows_.length
    · rw [if_pos hb2]
      refine ⟨?_, h2, ?_, h4⟩
      · show (m.rows_.set i defaultRowInfo).length ≤ m.maximumRows_
        rw [List.length_set]
        exact h1
      · show (m.elements_.map _).length ≤ m.maximumElements_
        rw [List.length_map]
        exact h3
    · rw [if_neg hb2]
      exact ⟨h1, h2, h3, h4⟩

/-- `deleteColumn` preserves the invariant. -/
theorem good_deleteColumn {m : CoinModel} (i : Nat) (h : m.Good) :
    (m.deleteColumn i).1.Good := by
  obtain ⟨h1, h2, h3, h4⟩ := h
  unfold deleteColumn
  by_cases hb1 : i + 1 = m.columns_.length
  · rw [if_pos hb1]
    refine ⟨h1, ?_, ?_, h4⟩
    · show (m.columns_.take i).length ≤ m.maximumColumns_
      rw [List.length_take]
      have h2b : m.columns_.length ≤ m.maximumColumns_ := h2
      omega
    · show (m.elements_.map _).length ≤ m.maximumElements_
      rw [List.length_map]
      exact h3
  · rw [if_neg hb1]
    by_cases hb2 : i < m.columns_.length
    · rw [if_pos hb2]
      refine ⟨h1, ?_, ?_, h4⟩
      · show (m.columns_.set i defaultColumnInfo).length ≤ m.maximumColumns_
        rw [List.length_set]
        exact h2
      · show (m.elements_.map _).length ≤ m.maximumElements_
        rw [List.length_map]
        exact h3
    · rw [if_neg hb2]
      exact ⟨h1, h2, h3, h4⟩

/-- `packRows` preserves the invariant. -/
theorem good_packRows {m : CoinModel} (h : m.Good) : (m.packRows).1.Good := by
  obtain ⟨h1, h2, h3, h4⟩ := h
  refine ⟨?_, h2, ?_, h4⟩
  · show (((List.range m.rows_.length).filter (fun i => !(m.rowIsHole i))).map
        (fun i => m.rowInfoAt i)).length ≤ m.maximumRows_
    rw [List.length_map]
    calc ((List.range m.rows_.length).filter (fun i => !(m.rowIsHole i))).length
        ≤ (List.range m.rows_.length).length := List.length_filter_le _ _
      _ = m.rows_.length := List.length_range _
      _ ≤ m.maximumRows_ := h1
  · show ((m.liveTriples).map _).length ≤ m.maximumElements_
    rw [List.length_map]
    calc m.liveTriples.length ≤ m.elements_.length := List.length_filterMap_le _ _
      _ ≤ m.maximumElements_ := h3

/-- `packColumns` preserves the invariant. -/
theorem good_packColumns {m : CoinModel} (h : m.Good) : (m.packColumns).1.Good := by
  obtain ⟨h1, h2, h3, h4⟩ := h
  refine ⟨h1, ?_, ?_, h4⟩
  · show (((List.range m.columns_.length).filter (fun j => !(m.columnIsHole j))).map
        (fun j => m.columnInfoAt j)).length ≤ m.maximumColumns_
    rw [List.length_map]
    calc ((List.range m.columns_.length).filter (fun j => !(m.columnIsHole j))).length
        ≤ (List.range m.columns_.length).length := List.length_filter_le _ _
      _ = m.columns_.length := List.length_range _
      _ ≤ m.maximumColumns_ := h2
  · show ((m.liveTriples).map _).length ≤ m.maximumElements_
    rw [List.length_map]
    calc m.liveTriples.length ≤ m.elements_.length := List.length_filterMap_le _ _
      _ ≤ m.maximumElements_ := h3

end CoinModel

namespace CoinModel

/-- Lazy row creation never shrinks a capacity. -/
theorem caps_fillRows (m : CoinModel) (i : Nat) : m.capsLE (m.fillRows i) := by
  unfold fillRows
  by_cases hlt : i < m.rows_.length
  · rw [if_pos hlt]
    exact capsLE_refl m
  · rw [if_neg hlt]
    exact ⟨growCapacity_ge_cur _ _, Nat.le_refl _, Nat.le_refl _, Nat.le_refl _⟩

/-- Lazy column creation never shrinks a capacity. -/
theorem caps_fillColumns (m : CoinModel) (i : Nat) : m.capsLE (m.fillColumns i) := by
  unfold fillColumns
  by_cases hlt : i < m.columns_.length
  · rw [if_pos hlt]
    exact capsLE_refl m
  · rw [if_neg hlt]
    exact ⟨Nat.le_refl _, growCapacity_ge_cur _ _, Nat.le_refl _, Nat.le_refl _⟩

/-- The element upsert never shrinks a capacity. -/
theorem caps_setElementValue (m : CoinModel) (i j : Nat) (v : CoinValue) :
    m.capsLE (m.setElementValue i j v) := by
  unfold setElementValue
  cases hs : setInList m.elements_ i j v with
  | some es => exact ⟨Nat.le_refl _, Nat.le_refl _, Nat.le_refl _, Nat.le_refl _⟩
  | none =>
    have c3 := capsLE_trans (caps_fillRows m i) (caps_fillColumns (m.fillRows i) j)
    exact ⟨c3.1, c3.2.1, Nat.le_trans c3.2.2.1 (growCapacity_ge_cur _ _), c3.2.2.2⟩

/-- The quadratic upsert never shrinks a capacity. -/
theorem caps_setQuadraticElement (m : CoinModel) (i j : Nat) (v : ℚ) :
    m.capsLE (m.setQuadraticElement i j v) := by
  unfold setQuadraticElement
  cases hs : setInList m.quadraticElements_ i j (CoinValue.num v) with
  | some es => exact ⟨Nat.le_refl _, Nat.le_refl _, Nat.le_refl _, Nat.le_refl _⟩
  | none =>
    have c3 := capsLE_trans (caps_fillColumns m i) (caps_fillColumns (m.fillColumns i) j)
    exact ⟨c3.1, c3.2.1, c3.2.2.1, Nat.le_trans c3.2.2.2 (growCapacity_ge_cur _ _)⟩

/-- A capacity-monotone fold never shrinks a capacity. -/
theorem caps_foldl {f : CoinModel → (Nat × ℚ) → CoinModel}
    (hf : ∀ (a : CoinModel) (p : Nat × ℚ), a.capsLE (f a p))
    (entries : List (Nat × ℚ)) :
    ∀ acc : CoinModel, acc.capsLE (entries.foldl f acc) := by
  induction entries with
  | nil => intro acc; exact capsLE_refl acc
  | cons p rest ih => intro acc; exact capsLE_trans (hf acc p) (ih _)

/-- `addRow` never shrinks a capacity. -/
theorem caps_addRow (m : CoinModel) (entries : List (Nat × ℚ)) (lo hi : ℚ)
    (nm : String) : m.capsLE (m.addRow entries lo hi nm) := by
  unfold addRow
  dsimp only
  refine capsLE_trans ?_ (caps_foldl (fun (a : CoinModel) (p : Nat × ℚ) =>
    caps_setElementValue a m.numberRows p.1 (CoinValue.num p.2)) entries _)
  exact caps_fillRows m m.numberRows

/-- `addColumn` never shrinks a capacity. -/
theorem caps_addColumn (m : CoinModel) (entries : List (Nat × ℚ)) (lo hi ob : ℚ)
    (nm : String) (b : Bool) : m.capsLE (m.addColumn entries lo hi ob nm b) := by
  unfold addColumn
  dsimp only
  refine capsLE_trans ?_ (caps_foldl (fun (a : CoinModel) (p : Nat × ℚ) =>
    caps_setElementValue a p.1 m.numberColumns (CoinValue.num p.2)) entries _)
  exact caps_fillColumns m m.numberColumns

/-- `deleteRow` never shrinks a capacity. -/
theorem caps_deleteRow (m : CoinModel) (i : Nat) : m.capsLE (m.deleteRow i).1 := by
  unfold deleteRow
  by_cases hb1 : i + 1 = m.rows_.length
  · rw [if_pos hb1]
    exact ⟨Nat.le_refl _, Nat.le_refl _, Nat.le_refl _, Nat.le_refl _⟩
  · rw [if_neg hb1]
    by_cases hb2 : i < m.rows_.length
    · rw [if_pos hb2]
      exact ⟨Nat.le_refl _, Nat.le_refl _, Nat.le_refl _, Nat.le_refl _⟩
    · rw [if_neg hb2]
      exact capsLE_refl m

/-- `deleteColumn` never shrinks a capacity. -/
theorem caps_deleteColumn (m : CoinModel) (i : Nat) : m.capsLE (m.deleteColumn i).1 := by
  unfold deleteColumn
  by_cases hb1 : i + 1 = m.columns_.length
  · rw [if_pos hb1]
    exact ⟨Nat.le_refl _, Nat.le_refl _, Nat.le_refl _, Nat.le_refl _⟩
  · rw [if_neg hb1]
    by_cases hb2 : i < m.columns_.length
    · rw [if_pos hb2]
      exact ⟨Nat.le_refl _, Nat.le_refl _, Nat.le_refl _, Nat.le_refl _⟩
    · rw [if_neg hb2]
      exact capsLE_refl m

/-- `associateElement` never shrinks a capacity (it only touches the string
pool). -/
theorem caps_associateElement (m : CoinModel) (s : String) (v : ℚ) :
    m.capsLE (m.associateElement s v).1 := by
  unfold associateElement
  cases stringId m.string_ s with
  | some id => exact ⟨Nat.le_refl _, Nat.le_refl _, Nat.le_refl _, Nat.le_refl _⟩
  | none => exact ⟨Nat.le_refl _, Nat.le_refl _, Nat.le_refl _, Nat.le_refl _⟩

/-- `setElementString` never shrinks a capacity. -/
theorem caps_setElementString (m : CoinModel) (i j : Nat) (s : String) :
    m.capsLE (m.setElementString i j s) := by
  unfold setElementString
  cases stringId m.string_ s with
  | some id => exact caps_setElementValue m i j _
  | none =>
    exact capsLE_trans
      (show m.capsLE { m with string_ := m.string_ ++ [(s, 0)] } from
        ⟨Nat.le_refl _, Nat.le_refl _, Nat.le_refl _, Nat.le_refl _⟩)
      (caps_setElementValue _ i j _)

/-- `associateElement` preserves the invariant. -/
theorem good_associateElement {m : CoinModel} (s : String) (v : ℚ) (h : m.Good) :
    (m.associateElement s v).1.Good := by
  unfold associateElement
  cases stringId m.string_ s with
  | some id => exact h
  | none => exact h

/-- `setElementString` preserves the invariant. -/
theorem good_setElementString {m : CoinModel} (i j : Nat) (s : String) (h : m.Good) :
    (m.setElementString i j s).Good := by
  unfold setElementString
  cases stringId m.string_ s with
  | some id => exact good_setElementValue _ _ _ h
  | none => exact good_setElementValue _ _ _ (show Good _ from h)

/-- `pack` preserves the invariant. -/
theorem good_pack {m : CoinModel} (h : m.Good) : (m.pack).1.Good :=
  good_packColumns (good_packRows h)

/-- Every reachable state satisfies the count-capacity invariant. -/
theorem good_of_reachable : ∀ m : CoinModel, Reachable m → m.Good := by
  intro m h
  induction h with
  | init => exact ⟨Nat.le_refl _, Nat.le_refl _, Nat.le_refl _, Nat.le_refl _⟩
  | addRow m entries lo hi nm _ ih => exact good_addRow entries lo hi nm ih
  | addColumn m entries lo hi ob nm b _ ih => exact good_addColumn entries lo hi ob nm b ih
  | setElement m i j v _ ih => exact good_setElementValue i j _ ih
  | setElementString m i j s _ ih => exact good_setElementString i j s ih
  | setQuadraticElement m i j v _ ih => exact good_setQuadraticElement i j v ih
  | associateElement m s v _ ih => exact good_associateElement s v ih
  | setRowLower m i x _ ih => exact good_rows_set (good_fillRows i ih) i _
  | setRowUpper m i x _ ih => exact good_rows_set (good_fillRows i ih) i _
  | setRowBounds m i x y _ ih => exact good_rows_set (good_fillRows i ih) i _
  | setRowName m i nm _ ih => exact good_rows_set (good_fillRows i ih) i _
  | setColumnLower m i x _ ih => exact good_columns_set (good_fillColumns i ih) i _
  | setColumnUpper m i x _ ih => exact good_columns_set (good_fillColumns i ih) i _
  | setColumnBounds m i x y _ ih => exact good_columns_set (good_fillColumns i ih) i _
  | setColumnObjective m i x _ ih => exact good_columns_set (good_fillColumns i ih) i _
  | setColumnName m i nm _ ih => exact good_columns_set (good_fillColumns i ih) i _
  | setColumnIsInteger m i b _ ih => exact good_columns_set (good_fillColumns i ih) i _
  | deleteRow m i _ ih => exact good_deleteRow i ih
  | deleteColumn m i _ ih => exact good_deleteColumn i ih
  | packRows m _ ih => exact good_packRows ih
  | packColumns m _ ih => exact good_packColumns ih
  | pack m _ ih => exact good_pack ih

end CoinModel

/-- C8: in every model state reachable through the public mutation surface,
`count ≤ capacity` holds for every paired (count, capacity) — rows,
columns, elements, quadratic elements — and no operation except an
explicit pack ever decreases a capacity. -/
theorem count_capacity_invariant :
    (∀ m : CoinModel, CoinModel.Reachable m → m.Good) ∧
    (∀ (m : CoinModel) (i j : Nat) (v : ℚ), m.capsLE (m.setElement i j v)) ∧
    (∀ (m : CoinModel) (i j : Nat) (s : String), m.capsLE (m.setElementString i j s)) ∧
    (∀ (m : CoinModel) (i j : Nat) (v : ℚ), m.capsLE (m.setQuadraticElement i j v)) ∧
    (∀ (m : CoinModel) (s : String) (v : ℚ), m.capsLE (m.associateElement s v).1) ∧
    (∀ (m : CoinModel) (i : Nat) (x : ℚ), m.capsLE (m.setRowLower i x)) ∧
    (∀ (m : CoinModel) (i : Nat) (x : ℚ), m.capsLE (m.setRowUpper i x)) ∧
    (∀ (m : CoinModel) (i : Nat) (x y : ℚ), m.capsLE (m.setRowBounds i x y)) ∧
    (∀ (m : CoinModel) (i : Nat) (nm : String), m.capsLE (m.setRowName i nm)) ∧
    (∀ (m : CoinModel) (i : Nat) (x : ℚ), m.capsLE (m.setColumnLower i x)) ∧
    (∀ (m : CoinModel) (i : Nat) (x : ℚ), m.capsLE (m.setColumnUpper i x)) ∧
    (∀ (m : CoinModel) (i : Nat) (x y : ℚ), m.capsLE (m.setColumnBounds i x y)) ∧
    (∀ (m : CoinModel) (i : Nat) (x : ℚ), m.capsLE (m.setColumnObjective i x)) ∧
    (∀ (m : CoinModel) (i : Nat) (nm : String), m.capsLE (m.setColumnName i nm)) ∧
    (∀ (m : CoinModel) (i : Nat) (b : Bool), m.capsLE (m.setColumnIsInteger i b)) ∧
    (∀ (m : CoinModel) (entries : List (Nat × ℚ)) (lo hi : ℚ) (nm : String),
       m.capsLE (m.addRow entries lo hi nm)) ∧
    (∀ (m : CoinModel) (entries : List (Nat × ℚ)) (lo hi ob : ℚ) (nm : String) (b : Bool),
       m.capsLE (m.addColumn entries lo hi ob nm b)) ∧
    (∀ (m : CoinModel) (i : Nat), m.capsLE (m.deleteRow i).1) ∧
    (∀ (m : CoinModel) (i : Nat), m.capsLE (m.deleteColumn i).1) :=
  ⟨CoinModel.good_of_reachable,
   fun m i j v => CoinModel.caps_setElementValue m i j (CoinValue.num v),
   fun m i j s => CoinModel.caps_setElementString m i j s,
   fun m i j v => CoinModel.caps_setQuadraticElement m i j v,
   fun m s v => CoinModel.caps_associateElement m s v,
   fun m i x => CoinModel.caps_fillRows m i,
   fun m i x => CoinModel.caps_fillRows m i,
   fun m i x y => CoinModel.caps_fillRows m i,
   fun m i nm => CoinModel.caps_fillRows m i,
   fun m i x => CoinModel.caps_fillColumns m i,
   fun m i x => CoinModel.caps_fillColumns m i,
   fun m i x y => CoinModel.caps_fillColumns m i,
   fun m i x => CoinModel.caps_fillColumns m i,
   fun m i nm => CoinModel.caps_fillColumns m i,
   fun m i b => CoinModel.caps_fillColumns m i,
   fun m entries lo hi nm => CoinModel.caps_addRow m entries lo hi nm,
   fun m entries lo hi ob nm b => CoinModel.caps_addColumn m entries lo hi ob nm b,
   fun m i => CoinModel.caps_deleteRow m i,
   fun m i => CoinModel.caps_deleteColumn m i⟩

/-- Witness for C8 at the initial state and a concrete mutation. -/
theorem count_capacity_invariant_witness :
    CoinModel.init.Good ∧ CoinModel.init.capsLE (CoinModel.init.setElement 0 0 1) :=
  ⟨count_capacity_invariant.1 CoinModel.init CoinModel.Reachable.init,
   count_capacity_invariant.2.1 CoinModel.init 0 0 1⟩
